import Mathlib

/-!
# Verification of the NaCl files source (incremental workspace engine)

Shallow embedding of `src/packages/workspace/src/workspace/nacl_files/nacl_files_source.ts`.

The embedding keeps the state-machine code (`buildNaclFilesState` and its
helpers) faithful to the TypeScript source: JavaScript objects are modelled as
insertion-ordered association lists (`jsGet`/`jsInsert`/`jsAssign` mirror
property lookup, property assignment and object spread), JavaScript `Set`
insertion is modelled by `setAdd`, and lodash `keyBy` / `omitBy` / `uniq` are
modelled by `keyBy` / the `dropEmpty` filter / `uniqList`.

External collaborators that are not under `src/` (the merge engine from
`../../merger` and `./elements_cache`, `ElemID` from `adapter-api`,
`transformElement` from `adapter-utils`) are modelled from the spec; each such
definition carries a doc comment starting with `Modelled from the spec:`.
-/

namespace Salto

/-- Modelled from the spec: `ElementIdentity` / `ElemID` from
`@salto-io/adapter-api` (not under `src/`).  "A hierarchical path (top-level
name, optional nested path segments) ... equality is structural (full-name
string form)".  `top` is the full top-level name, `path` the nested
segments. -/
structure ElemID where
  top : String
  path : List String
deriving DecidableEq, Repr

/-- Modelled from the spec: the full-name string form of an identity. -/
def ElemID.getFullName (id : ElemID) : String :=
  id.path.foldl (fun acc p => acc ++ "." ++ p) id.top

/-- Modelled from the spec: `createTopLevelParentID` of `adapter-api` — splits
an identity into its top-level parent and the nested path below it. -/
def ElemID.createTopLevelParentID (id : ElemID) : ElemID × List String :=
  (⟨id.top, []⟩, id.path)

/-- Modelled from the spec: `createNestedID` of `adapter-api` — appends path
segments to an identity. -/
def ElemID.createNestedID (id : ElemID) (parts : List String) : ElemID :=
  ⟨id.top, id.path ++ parts⟩

/-- A top-level element fragment as seen by the incremental state manager.
The state machine in `buildNaclFilesState` only ever inspects `elemID` (via
`getFullName`) and whole-fragment equality, so the fragment body is abstracted
to a numeric payload `value`. -/
structure Element where
  elemID : ElemID
  value : Nat
deriving DecidableEq, Repr

/-- Shorthand for the full name of a fragment's identity
(`element.elemID.getFullName()` in the source). -/
def Element.fullName (e : Element) : String := e.elemID.getFullName

/-- `ParsedNaclFile` of the source: filename, timestamp, elements, parse
errors and the referenced identities (by full name). Parse errors are
abstracted to strings. -/
structure ParsedNaclFile where
  filename : String
  timestamp : Nat
  elements : List Element
  errors : List String
  referenced : List String
deriving DecidableEq, Repr

/-! ## JavaScript object / Set / lodash primitives -/

/-- JavaScript property read `m[k]` on a plain object modelled as an
insertion-ordered association list. -/
def jsGet {α : Type} : List (String × α) → String → Option α
  | [], _ => none
  | p :: ps, k => if p.1 = k then some p.2 else jsGet ps k

/-- JavaScript property write `m[k] = v`: replaces the value in place when the
key exists (keeping its position) and appends the key otherwise. -/
def jsInsert {α : Type} (m : List (String × α)) (k : String) (v : α) :
    List (String × α) :=
  if (jsGet m k).isSome then m.map (fun p => if p.1 = k then (k, v) else p)
  else m ++ [(k, v)]

/-- JavaScript object spread `{ ...m, ...new }`: assigns each entry of the
second object onto the first in order. -/
def jsAssign {α : Type} (m new : List (String × α)) : List (String × α) :=
  new.foldl (fun acc p => jsInsert acc p.1 p.2) m

/-- JavaScript `Set.add` on a set represented as its insertion-ordered element
list (what `Array.from` of the set returns). -/
def setAdd (s : List String) (x : String) : List String :=
  if x ∈ s then s else s ++ [x]

/-- Insertion-ordered deduplication: lodash `_.uniq` and the spread of a
JavaScript `Set` built from a list. -/
def uniqList (xs : List String) : List String := xs.foldl setAdd []

/-- lodash `_.keyBy(files, f => f.filename)`. -/
def keyBy (files : List ParsedNaclFile) : List (String × ParsedNaclFile) :=
  jsAssign [] (files.map (fun f => (f.filename, f)))

/-- The `_.omitBy` filter of `buildNaclFilesState`: drop files whose element
list and error list are both empty ("tombstoning" an all-empty file). -/
def dropEmpty (m : List (String × ParsedNaclFile)) :
    List (String × ParsedNaclFile) :=
  m.filter (fun p => !(p.2.elements.isEmpty && p.2.errors.isEmpty))

/-! ## Merge engine (external collaborator)

`mergeElements` (from `../../merger`) and `buildNewMergedElementsAndErrors`
(from `./elements_cache`) are not under `src/`; they are modelled from the
spec.  A `MergedElement` — "the single combined view of all fragments sharing
an identity" whose content is "a deterministic structural merge of its
fragments, with order determined by a stable fragment ordering" — is modelled
as the multiset of its fragments (the universal deterministic,
input-order-independent combination).  A merge error — "semantic conflict
between fragments of the same identity" — is modelled per identity as the
presence of two fragments with distinct payloads; the error collection is the
per-identity conflict predicate. -/

/-- The fragments contributing to one identity within a flat element list. -/
def fragmentsFor (id : String) (elems : List Element) : List Element :=
  elems.filter (fun e => e.fullName = id)

/-- Modelled from the spec: the merged-elements map produced by the external
`mergeElements` — one merged element (the multiset of its fragments) per
identity that has at least one fragment. -/
def mergedFragments (elems : List Element) (id : String) :
    Option (Multiset Element) :=
  if fragmentsFor id elems = [] then none
  else some (Multiset.ofList (fragmentsFor id elems))

/-- Modelled from the spec: the merge-error collection produced by the
external `mergeElements` — an identity is in error exactly when its fragments
carry conflicting payloads. -/
def conflictsIn (elems : List Element) (id : String) : Bool :=
  decide (2 ≤ ((fragmentsFor id elems).map (fun e => e.value)).dedup.length)

/-- A semantic change record: an added/modified/removed merged element. -/
inductive Change where
  | add (id : String) (after : Multiset Element)
  | modify (id : String) (before after : Multiset Element)
  | remove (id : String) (before : Multiset Element)
deriving DecidableEq

/-- Modelled from the spec: the change record for one affected identity — an
element appearing is an addition, disappearing a removal, and changing a
modification; an identity whose merged element is unchanged produces no
change. -/
def changeFor (id : String) :
    Option (Multiset Element) → Option (Multiset Element) → Option Change
  | none, none => none
  | none, some a => some (Change.add id a)
  | some b, none => some (Change.remove id b)
  | some b, some a => if b = a then none else some (Change.modify id b a)

/-- Result of the incremental merge: updated merged map, updated error
collection, change list. -/
structure MergedUpdateResult where
  mergedElements : String → Option (Multiset Element)
  mergeErrors : String → Bool
  changes : List Change

/-- Modelled from the spec: `buildNewMergedElementsAndErrors` of
`./elements_cache` (not under `src/`) — the merge engine's "incremental
variant taking prior merged state + prior errors + the new/changed element
subset + affected-identity list, returning updated merged map, updated
errors, and a `Change` list"; entries of unaffected identities "are carried
over untouched". -/
def buildNewMergedElementsAndErrors (newElements : List Element)
    (relevantElementIDs : List String)
    (currentElements : String → Option (Multiset Element))
    (currentMergeErrors : String → Bool) : MergedUpdateResult where
  mergedElements := fun id =>
    if id ∈ relevantElementIDs then mergedFragments newElements id
    else currentElements id
  mergeErrors := fun id =>
    if id ∈ relevantElementIDs then conflictsIn newElements id
    else currentMergeErrors id
  changes := relevantElementIDs.filterMap
    (fun id => changeFor id (currentElements id) (mergedFragments newElements id))

/-! ## The incremental state manager (`buildNaclFilesState`) -/

/-- `NaclFilesState` of the source.  `parsedNaclFiles`, `elementsIndex` and
`referencedIndex` are JavaScript objects, kept as insertion-ordered
association lists; `mergedElements` and `mergeErrors` come from the
spec-modelled merge engine and are kept as maps (functions). -/
structure NaclFilesState where
  parsedNaclFiles : List (String × ParsedNaclFile)
  elementsIndex : List (String × List String)
  mergedElements : String → Option (Multiset Element)
  mergeErrors : String → Bool
  referencedIndex : List (String × List String)

/-- One step of the index build: add `fn` to the set stored under key `k`
(`elementsIndexSet[name] = elementsIndexSet[name] ?? new Set(); ....add`). -/
def indexAdd (idx : List (String × List String)) (k fn : String) :
    List (String × List String) :=
  jsInsert idx k (setAdd ((jsGet idx k).getD []) fn)

/-- The common shape of the two index loops of `buildNaclFilesState` (lines
213–226): for every file, for every key `keysOf` extracts from it, add the
filename to the set stored under that key. -/
def buildIndex (keysOf : ParsedNaclFile → List String)
    (files : List ParsedNaclFile) : List (String × List String) :=
  files.foldl
    (fun idx f => (keysOf f).foldl (fun idx k => indexAdd idx k f.filename) idx)
    []

/-- The `elementsIndexSet` loop of `buildNaclFilesState`: for every file, for
every element it contains, add the filename to the set under the element's
full name. -/
def buildElementsIndex (files : List ParsedNaclFile) :
    List (String × List String) :=
  buildIndex (fun f => f.elements.map Element.fullName) files

/-- The `referencedIndexSet` loop of `buildNaclFilesState`: for every file,
for every identity in its `referenced` list, add the filename to the set
under that identity. -/
def buildReferencedIndex (files : List ParsedNaclFile) :
    List (String × List String) :=
  buildIndex (fun f => f.referenced) files

/-- `currentElementsOfNewFiles` (lines 246–248): every element previously held
by the changed files' filenames. -/
def currentElementsOfNewFiles (newNaclFiles : List ParsedNaclFile)
    (current : List (String × ParsedNaclFile)) : List Element :=
  (newNaclFiles.map (fun f => f.filename)).flatMap
    (fun filename => ((jsGet current filename).map (fun f => f.elements)).getD [])

/-- `relevantElementIDs` (lines 249–251): the affected identity set — the
full names of the changed files' new elements and of their previous
elements, deduplicated through a `Set`. -/
def relevantElementIDs (newNaclFiles : List ParsedNaclFile)
    (current : List (String × ParsedNaclFile)) : List String :=
  uniqList
    ((newNaclFiles.flatMap (fun f => f.elements) ++
      currentElementsOfNewFiles newNaclFiles current).map (fun e => e.fullName))

/-- `relevantFiles` (lines 253–255): every file the fresh `elementsIndex`
maps to some affected identity (`_.uniq` of the concatenated index rows). -/
def relevantFiles (relevantIDs : List String)
    (elementsIndex : List (String × List String)) : List String :=
  uniqList (relevantIDs.flatMap (fun fullName => (jsGet elementsIndex fullName).getD []))

/-- `newElementsToMerge` (lines 256–258): the affected fragments drawn from
the relevant files. -/
def newElementsToMerge (relevantFileList : List String)
    (relevantIDs : List String) (allParsed : List (String × ParsedNaclFile)) :
    List Element :=
  relevantFileList.flatMap (fun fileName =>
    (((jsGet allParsed fileName).map (fun f => f.elements)).getD []).filter
      (fun e => e.fullName ∈ relevantIDs))

/-- Result of a state transition: new snapshot plus semantic change list. -/
structure BuildResult where
  state : NaclFilesState
  changes : List Change

/-- `buildNaclFilesState` (lines 204–275): the core state transition.  Cold
path (`currentState` absent): merge all new elements globally, empty change
list.  Warm path: overlay the changed files (dropping all-empty ones),
rebuild both indices from the whole file map, compute affected identities and
relevant files, and re-merge incrementally. -/
def buildNaclFilesState (newNaclFiles : List ParsedNaclFile)
    (currentState : Option NaclFilesState) : BuildResult :=
  let current := match currentState with
    | some s => s.parsedNaclFiles
    | none => []
  let newParsed := keyBy newNaclFiles
  let allParsed := dropEmpty (jsAssign current newParsed)
  let elementsIndex := buildElementsIndex (allParsed.map Prod.snd)
  let referencedIndex := buildReferencedIndex (allParsed.map Prod.snd)
  let newNaclFilesElements := newNaclFiles.flatMap (fun f => f.elements)
  match currentState with
  | none =>
    { state :=
        { parsedNaclFiles := allParsed
          mergedElements := mergedFragments newNaclFilesElements
          mergeErrors := conflictsIn newNaclFilesElements
          elementsIndex := elementsIndex
          referencedIndex := referencedIndex }
      changes := [] }
  | some cs =>
    let relevantIDs := relevantElementIDs newNaclFiles current
    let relFiles := relevantFiles relevantIDs elementsIndex
    let toMerge := newElementsToMerge relFiles relevantIDs allParsed
    let mergedResult := buildNewMergedElementsAndErrors toMerge relevantIDs
      cs.mergedElements cs.mergeErrors
    { state :=
        { parsedNaclFiles := allParsed
          mergedElements := mergedResult.mergedElements
          mergeErrors := mergedResult.mergeErrors
          elementsIndex := elementsIndex
          referencedIndex := referencedIndex }
      changes := mergedResult.changes }

/-! ## Lemmas about the JavaScript primitives -/

theorem mem_setAdd {s : List String} {x y : String} :
    y ∈ setAdd s x ↔ y ∈ s ∨ y = x := by
  unfold setAdd
  split
  · constructor
    · exact fun h => Or.inl h
    · rintro (h | rfl)
      · exact h
      · assumption
  · simp

theorem nodup_setAdd {s : List String} {x : String} (h : s.Nodup) :
    (setAdd s x).Nodup := by
  unfold setAdd
  split
  · exact h
  · next hx =>
    refine List.Nodup.append h (List.nodup_singleton x) ?_
    intro b hb hbx
    rw [List.mem_singleton] at hbx
    subst hbx
    exact hx hb

theorem mem_foldl_setAdd {xs : List String} {acc : List String} {y : String} :
    y ∈ xs.foldl setAdd acc ↔ y ∈ acc ∨ y ∈ xs := by
  induction xs generalizing acc with
  | nil => simp
  | cons x xs ih =>
    simp only [List.foldl_cons, ih, mem_setAdd, List.mem_cons]
    tauto

theorem mem_uniqList {xs : List String} {y : String} :
    y ∈ uniqList xs ↔ y ∈ xs := by
  unfold uniqList
  rw [mem_foldl_setAdd]
  simp

theorem nodup_uniqList (xs : List String) : (uniqList xs).Nodup := by
  unfold uniqList
  have h : ∀ acc : List String, acc.Nodup → (xs.foldl setAdd acc).Nodup := by
    induction xs with
    | nil => exact fun acc h => h
    | cons x xs ih => exact fun acc h => ih _ (nodup_setAdd h)
  exact h [] List.nodup_nil

theorem jsGet_eq_some_of_mem {α : Type} {m : List (String × α)} {k : String}
    {v : α} (hk : (m.map Prod.fst).Nodup) (h : (k, v) ∈ m) :
    jsGet m k = some v := by
  induction m with
  | nil => simp at h
  | cons p ps ih =>
    simp only [List.map_cons, List.nodup_cons] at hk
    rcases List.mem_cons.mp h with rfl | h
    · simp [jsGet]
    · have hne : p.1 ≠ k := by
        intro he
        exact hk.1 (he ▸ List.mem_map_of_mem Prod.fst h)
      simp [jsGet, hne, ih hk.2 h]

theorem mem_of_jsGet_eq_some {α : Type} {m : List (String × α)} {k : String}
    {v : α} (h : jsGet m k = some v) : (k, v) ∈ m := by
  induction m with
  | nil => simp [jsGet] at h
  | cons p ps ih =>
    rcases p with ⟨pk, pv⟩
    by_cases hpk : pk = k
    · subst hpk
      simp [jsGet] at h
      subst h
      exact List.mem_cons_self _ _
    · simp only [jsGet, if_neg hpk] at h
      exact List.mem_cons_of_mem _ (ih h)

theorem jsGet_eq_none_iff {α : Type} {m : List (String × α)} {k : String} :
    jsGet m k = none ↔ ∀ p ∈ m, p.1 ≠ k := by
  induction m with
  | nil => simp [jsGet]
  | cons p ps ih =>
    by_cases hpk : p.1 = k
    · simp [jsGet, hpk]
    · simp [jsGet, hpk, ih]

theorem jsGet_append {α : Type} (m m₂ : List (String × α)) (k : String) :
    jsGet (m ++ m₂) k = (jsGet m k).orElse (fun _ => jsGet m₂ k) := by
  induction m with
  | nil => simp [jsGet]
  | cons p ps ih =>
    by_cases hpk : p.1 = k
    · simp [jsGet, hpk]
    · simp [jsGet, hpk, ih]

theorem jsGet_replace_ne {α : Type} (m : List (String × α)) {k k' : String}
    (v : α) (h : k' ≠ k) :
    jsGet (m.map (fun p => if p.1 = k then (k, v) else p)) k' = jsGet m k' := by
  induction m with
  | nil => simp [jsGet]
  | cons p ps ih =>
    by_cases hpk : p.1 = k
    · have hkk : ¬(k = k') := fun he => h he.symm
      have hp : ¬(p.1 = k') := fun he => h (he ▸ hpk)
      simp only [List.map_cons, if_pos hpk, jsGet, if_neg hkk, if_neg hp]
      exact ih
    · by_cases hp : p.1 = k'
      · simp only [List.map_cons, if_neg hpk, jsGet, if_pos hp]
      · simp only [List.map_cons, if_neg hpk, jsGet, if_neg hp]
        exact ih

theorem jsGet_replace_self {α : Type} (m : List (String × α)) {k : String}
    (v : α) (h : (jsGet m k).isSome) :
    jsGet (m.map (fun p => if p.1 = k then (k, v) else p)) k = some v := by
  induction m with
  | nil => simp [jsGet] at h
  | cons p ps ih =>
    by_cases hpk : p.1 = k
    · simp [jsGet, hpk]
    · simp only [jsGet, if_neg hpk] at h
      simp [jsGet, hpk, ih h]

theorem jsGet_jsInsert {α : Type} (m : List (String × α)) (k k' : String)
    (v : α) :
    jsGet (jsInsert m k v) k' = if k' = k then some v else jsGet m k' := by
  unfold jsInsert
  by_cases hsome : (jsGet m k).isSome
  · rw [if_pos hsome]
    by_cases hk : k' = k
    · subst hk
      rw [jsGet_replace_self m v hsome, if_pos rfl]
    · rw [jsGet_replace_ne m v hk, if_neg hk]
  · rw [if_neg hsome, jsGet_append]
    by_cases hk : k' = k
    · subst hk
      rw [Option.not_isSome_iff_eq_none.mp hsome, if_pos rfl]
      simp [jsGet]
    · rw [if_neg hk]
      have hne : ¬(k = k') := fun he => hk he.symm
      have h2 : jsGet [(k, v)] k' = none := by simp [jsGet, hne]
      rw [h2]
      cases jsGet m k' <;> rfl

theorem keys_jsInsert {α : Type} (m : List (String × α)) (k : String) (v : α) :
    (jsInsert m k v).map Prod.fst =
      if (jsGet m k).isSome then m.map Prod.fst else m.map Prod.fst ++ [k] := by
  unfold jsInsert
  split
  · next h =>
    rw [List.map_map]
    refine List.map_congr_left (fun p _ => ?_)
    by_cases hpk : p.1 = k
    · simp [Function.comp, hpk]
    · simp [Function.comp, hpk]
  · next h => rw [List.map_append, List.map_singleton]

theorem nodup_keys_jsInsert {α : Type} {m : List (String × α)} {k : String}
    {v : α} (h : (m.map Prod.fst).Nodup) :
    ((jsInsert m k v).map Prod.fst).Nodup := by
  rw [keys_jsInsert]
  split
  · exact h
  · next hn =>
    refine List.Nodup.append h (List.nodup_singleton k) ?_
    intro b hb hbk
    rw [List.mem_singleton] at hbk
    subst hbk
    rcases List.mem_map.mp hb with ⟨p, hp, hpk⟩
    exact (jsGet_eq_none_iff.mp (Option.not_isSome_iff_eq_none.mp hn) p hp) hpk

theorem nodup_keys_jsAssign {α : Type} {m : List (String × α)}
    (new : List (String × α)) (h : (m.map Prod.fst).Nodup) :
    ((jsAssign m new).map Prod.fst).Nodup := by
  induction new generalizing m with
  | nil => exact h
  | cons q qs ih => exact ih (nodup_keys_jsInsert h)

theorem mem_jsInsert {α : Type} {m : List (String × α)} {k : String} {v : α}
    {p : String × α} (h : p ∈ jsInsert m k v) : p = (k, v) ∨ p ∈ m := by
  unfold jsInsert at h
  split at h
  · rcases List.mem_map.mp h with ⟨q, hq, hqe⟩
    by_cases hqk : q.1 = k
    · rw [if_pos hqk] at hqe
      exact Or.inl hqe.symm
    · rw [if_neg hqk] at hqe
      exact Or.inr (hqe ▸ hq)
  · rcases List.mem_append.mp h with h | h
    · exact Or.inr h
    · exact Or.inl (List.mem_singleton.mp h)

theorem pairProp_jsAssign {α : Type} {P : String × α → Prop}
    {m new : List (String × α)} (hm : ∀ p ∈ m, P p) (hnew : ∀ p ∈ new, P p) :
    ∀ p ∈ jsAssign m new, P p := by
  induction new generalizing m with
  | nil => exact hm
  | cons q qs ih =>
    refine ih (fun p hp => ?_) (fun p hp => hnew p (List.mem_cons_of_mem _ hp))
    rcases mem_jsInsert hp with rfl | hp2
    · exact hnew q (List.mem_cons_self _ _)
    · exact hm p hp2

theorem jsGet_jsAssign_of_none {α : Type} {new : List (String × α)}
    {k : String} (m : List (String × α)) (h : jsGet new k = none) :
    jsGet (jsAssign m new) k = jsGet m k := by
  induction new generalizing m with
  | nil => rfl
  | cons q qs ih =>
    rcases q with ⟨qk, qv⟩
    by_cases hqk : qk = k
    · subst hqk
      simp [jsGet] at h
    · simp only [jsGet, if_neg hqk] at h
      show jsGet (jsAssign (jsInsert m qk qv) qs) k = jsGet m k
      rw [ih _ h, jsGet_jsInsert]
      exact if_neg (fun he => hqk he.symm)

theorem jsGet_jsAssign_of_some {α : Type} {new : List (String × α)}
    {k : String} {v : α} (m : List (String × α))
    (hnd : (new.map Prod.fst).Nodup) (h : jsGet new k = some v) :
    jsGet (jsAssign m new) k = some v := by
  induction new generalizing m with
  | nil => simp [jsGet] at h
  | cons q qs ih =>
    rcases q with ⟨qk, qv⟩
    simp only [List.map_cons, List.nodup_cons] at hnd
    by_cases hqk : qk = k
    · subst hqk
      simp [jsGet] at h
      subst h
      have hqs : jsGet qs qk = none := by
        rw [jsGet_eq_none_iff]
        intro p hp hpk
        exact hnd.1 (hpk ▸ List.mem_map_of_mem Prod.fst hp)
      show jsGet (jsAssign (jsInsert m qk qv) qs) qk = some qv
      rw [jsGet_jsAssign_of_none _ hqs, jsGet_jsInsert, if_pos rfl]
    · simp only [jsGet, if_neg hqk] at h
      exact ih _ hnd.2 h

theorem jsAssign_eq_append {α : Type} {m new : List (String × α)}
    (h : (m.map Prod.fst ++ new.map Prod.fst).Nodup) :
    jsAssign m new = m ++ new := by
  induction new generalizing m with
  | nil => simp [jsAssign]
  | cons q qs ih =>
    have hget : jsGet m q.1 = none := by
      rw [jsGet_eq_none_iff]
      intro p hp hpk
      rcases List.nodup_append.mp h with ⟨-, -, hdisj⟩
      exact hdisj (hpk ▸ List.mem_map_of_mem Prod.fst hp)
        (by simp)
    have hins : jsInsert m q.1 q.2 = m ++ [q] := by
      unfold jsInsert
      rw [if_neg (by rw [hget]; simp)]
    show jsAssign (jsInsert m q.1 q.2) qs = m ++ q :: qs
    rw [hins]
    have h2 : ((m ++ [q]).map Prod.fst ++ qs.map Prod.fst).Nodup := by
      simpa [List.nodup_append, or_imp, forall_and, and_assoc] using h
    rw [ih h2, List.append_assoc]
    rfl

/-! ## Lemmas about `keyBy` and `dropEmpty` -/

theorem nodup_keys_keyBy (files : List ParsedNaclFile) :
    ((keyBy files).map Prod.fst).Nodup :=
  nodup_keys_jsAssign _ List.nodup_nil

theorem mem_keyBy {files : List ParsedNaclFile} {p : String × ParsedNaclFile}
    (h : p ∈ keyBy files) : p.1 = p.2.filename ∧ p.2 ∈ files := by
  refine pairProp_jsAssign (P := fun p => p.1 = p.2.filename ∧ p.2 ∈ files)
    (fun q hq => absurd hq (List.not_mem_nil q)) (fun q hq => ?_) p h
  rcases List.mem_map.mp hq with ⟨f, hf, rfl⟩
  exact ⟨rfl, hf⟩

theorem keyBy_eq_of_nodup {files : List ParsedNaclFile}
    (h : (files.map (fun f => f.filename)).Nodup) :
    keyBy files = files.map (fun f => (f.filename, f)) := by
  unfold keyBy
  rw [jsAssign_eq_append]
  · simp
  · simpa [List.map_map, Function.comp] using h

theorem keys_dropEmpty_sublist (m : List (String × ParsedNaclFile)) :
    ((dropEmpty m).map Prod.fst).Sublist (m.map Prod.fst) :=
  (List.filter_sublist m).map Prod.fst

theorem nodup_keys_dropEmpty {m : List (String × ParsedNaclFile)}
    (h : (m.map Prod.fst).Nodup) : ((dropEmpty m).map Prod.fst).Nodup :=
  (keys_dropEmpty_sublist m).nodup h

theorem mem_dropEmpty {m : List (String × ParsedNaclFile)}
    {p : String × ParsedNaclFile} :
    p ∈ dropEmpty m ↔
      p ∈ m ∧ (p.2.elements.isEmpty && p.2.errors.isEmpty) = false := by
  unfold dropEmpty
  simp only [List.mem_filter, Bool.not_eq_true']

theorem jsGet_dropEmpty {m : List (String × ParsedNaclFile)}
    (hnd : (m.map Prod.fst).Nodup) (k : String) :
    jsGet (dropEmpty m) k = (jsGet m k).bind
      (fun f => if f.elements.isEmpty && f.errors.isEmpty then none else some f) := by
  induction m with
  | nil => simp [dropEmpty, jsGet]
  | cons p ps ih =>
    simp only [List.map_cons, List.nodup_cons] at hnd
    have hrec := ih hnd.2
    by_cases hdrop : (p.2.elements.isEmpty && p.2.errors.isEmpty) = true
    · have hde : dropEmpty (p :: ps) = dropEmpty ps := by
        unfold dropEmpty
        rw [List.filter_cons, if_neg (by simp [hdrop])]
      rw [hde]
      by_cases hpk : p.1 = k
      · have hr : jsGet (p :: ps) k = some p.2 := by simp [jsGet, hpk]
        have hnone : jsGet (dropEmpty ps) k = none := by
          rw [jsGet_eq_none_iff]
          intro q hq hqk
          exact hnd.1 ((hqk.trans hpk.symm) ▸
            List.mem_map_of_mem Prod.fst (mem_dropEmpty.mp hq).1)
        rw [hnone, hr]
        show (none : Option ParsedNaclFile) =
          if p.2.elements.isEmpty && p.2.errors.isEmpty then none else some p.2
        rw [if_pos hdrop]
      · have hr : jsGet (p :: ps) k = jsGet ps k := by simp [jsGet, hpk]
        rw [hr, hrec]
    · have hfalse : (p.2.elements.isEmpty && p.2.errors.isEmpty) = false := by
        revert hdrop
        cases p.2.elements.isEmpty && p.2.errors.isEmpty <;> simp
      have hde : dropEmpty (p :: ps) = p :: dropEmpty ps := by
        unfold dropEmpty
        rw [List.filter_cons, if_pos (by simp [hfalse])]
      rw [hde]
      by_cases hpk : p.1 = k
      · have hr : jsGet (p :: ps) k = some p.2 := by simp [jsGet, hpk]
        have hl : jsGet (p :: dropEmpty ps) k = some p.2 := by simp [jsGet, hpk]
        rw [hl, hr]
        show some p.2 =
          if p.2.elements.isEmpty && p.2.errors.isEmpty then none else some p.2
        rw [if_neg (by simp [hfalse])]
      · have hr : jsGet (p :: ps) k = jsGet ps k := by simp [jsGet, hpk]
        have hl : jsGet (p :: dropEmpty ps) k = jsGet (dropEmpty ps) k := by
          simp [jsGet, hpk]
        rw [hl, hr, hrec]

/-! ## Characterization of the index build -/

theorem mem_indexAdd {idx : List (String × List String)} {k fn id x : String} :
    x ∈ (jsGet (indexAdd idx k fn) id).getD [] ↔
      (id = k ∧ x = fn) ∨ x ∈ (jsGet idx id).getD [] := by
  unfold indexAdd
  rw [jsGet_jsInsert]
  by_cases hid : id = k
  · subst hid
    simp [mem_setAdd]
    tauto
  · simp only [if_neg hid]
    tauto

theorem mem_foldl_indexAdd {ks : List String} {fn : String}
    {idx : List (String × List String)} {id x : String} :
    x ∈ (jsGet (ks.foldl (fun idx k => indexAdd idx k fn) idx) id).getD [] ↔
      (id ∈ ks ∧ x = fn) ∨ x ∈ (jsGet idx id).getD [] := by
  induction ks generalizing idx with
  | nil => simp
  | cons a ks ih =>
    simp only [List.foldl_cons, ih, mem_indexAdd, List.mem_cons]
    tauto

theorem mem_buildIndex {keysOf : ParsedNaclFile → List String}
    {files : List ParsedNaclFile} {id x : String} :
    x ∈ (jsGet (buildIndex keysOf files) id).getD [] ↔
      ∃ f ∈ files, x = f.filename ∧ id ∈ keysOf f := by
  have hgen : ∀ idx : List (String × List String),
      x ∈ (jsGet (files.foldl
          (fun idx f => (keysOf f).foldl (fun idx k => indexAdd idx k f.filename) idx)
          idx) id).getD [] ↔
        (∃ f ∈ files, x = f.filename ∧ id ∈ keysOf f) ∨
          x ∈ (jsGet idx id).getD [] := by
    induction files with
    | nil => simp
    | cons f fs ih =>
      intro idx
      simp only [List.foldl_cons, ih, mem_foldl_indexAdd, List.mem_cons]
      constructor
      · rintro (⟨g, hg, hx⟩ | ⟨⟨hk, hx⟩ | hmem⟩)
        · exact Or.inl ⟨g, Or.inr hg, hx⟩
        · exact Or.inl ⟨f, Or.inl rfl, hx, hk⟩
        · exact Or.inr hmem
      · rintro (⟨g, rfl | hg, hx⟩ | hmem)
        · exact Or.inr (Or.inl ⟨hx.2, hx.1⟩)
        · exact Or.inl ⟨g, hg, hx⟩
        · exact Or.inr (Or.inr hmem)
  rw [buildIndex, hgen]
  simp [jsGet]

theorem mem_buildElementsIndex {files : List ParsedNaclFile} {id x : String} :
    x ∈ (jsGet (buildElementsIndex files) id).getD [] ↔
      ∃ f ∈ files, x = f.filename ∧ ∃ e ∈ f.elements, e.fullName = id := by
  rw [buildElementsIndex, mem_buildIndex]
  constructor
  · rintro ⟨f, hf, hx, hid⟩
    rcases List.mem_map.mp hid with ⟨e, he, hei⟩
    exact ⟨f, hf, hx, e, he, hei⟩
  · rintro ⟨f, hf, hx, e, he, hei⟩
    exact ⟨f, hf, hx, List.mem_map.mpr ⟨e, he, hei⟩⟩

theorem mem_buildReferencedIndex {files : List ParsedNaclFile} {id x : String} :
    x ∈ (jsGet (buildReferencedIndex files) id).getD [] ↔
      ∃ f ∈ files, x = f.filename ∧ id ∈ f.referenced := by
  rw [buildReferencedIndex, mem_buildIndex]

/-! ## List helper lemmas -/

theorem filter_flatMap {α β : Type} (l : List α) (g : α → List β)
    (p : β → Bool) :
    (l.flatMap g).filter p = l.flatMap (fun a => (g a).filter p) := by
  induction l with
  | nil => simp
  | cons a l ih => simp [List.flatMap_cons, List.filter_append, ih]

theorem flatMap_filter_eq_of_empty {α β : Type} {l : List α} {p : α → Bool}
    {g : α → List β} (h : ∀ a ∈ l, p a = false → g a = []) :
    (l.filter p).flatMap g = l.flatMap g := by
  induction l with
  | nil => simp
  | cons a l ih =>
    have ihl := ih (fun a ha => h a (List.mem_cons_of_mem _ ha))
    rw [List.filter_cons]
    by_cases hp : p a = true
    · rw [if_pos hp, List.flatMap_cons, List.flatMap_cons, ihl]
    · have hp2 : p a = false := by revert hp; cases p a <;> simp
      rw [if_neg (by simp [hp2]), List.flatMap_cons, h a (List.mem_cons_self _ _) hp2, ihl]
      rfl

theorem mem_optElems {o : Option ParsedNaclFile} {x : Element} :
    x ∈ ((o.map (fun f => f.elements)).getD []) ↔
      ∃ pf, o = some pf ∧ x ∈ pf.elements := by
  cases o <;> simp

/-! ## Invariance of the modelled merge under fragment reordering -/

theorem fragmentsFor_perm {l₁ l₂ : List Element} (id : String)
    (h : l₁.Perm l₂) : (fragmentsFor id l₁).Perm (fragmentsFor id l₂) :=
  h.filter _

theorem mergedFragments_congr {l₁ l₂ : List Element} {id : String}
    (h : (fragmentsFor id l₁).Perm (fragmentsFor id l₂)) :
    mergedFragments l₁ id = mergedFragments l₂ id := by
  unfold mergedFragments
  by_cases h1 : fragmentsFor id l₁ = []
  · rw [if_pos h1, if_pos (List.perm_nil.mp (h1 ▸ h).symm)]
  · have h2 : fragmentsFor id l₂ ≠ [] := by
      intro h2
      exact h1 (List.perm_nil.mp (h2 ▸ h))
    rw [if_neg h1, if_neg h2]
    exact congrArg some (Multiset.coe_eq_coe.mpr h)

theorem conflictsIn_congr {l₁ l₂ : List Element} {id : String}
    (h : (fragmentsFor id l₁).Perm (fragmentsFor id l₂)) :
    conflictsIn l₁ id = conflictsIn l₂ id := by
  unfold conflictsIn
  rw [((h.map _).dedup).length_eq]

/-! ## The warm path re-merges exactly the fragments of each affected identity -/

/-- All element fragments held by a parsed-file map. -/
def allElements (m : List (String × ParsedNaclFile)) : List Element :=
  m.flatMap (fun p => p.2.elements)

theorem mem_relevantFiles {rel : List String}
    {idx : List (String × List String)} {fn : String} :
    fn ∈ relevantFiles rel idx ↔
      ∃ id ∈ rel, fn ∈ (jsGet idx id).getD [] := by
  unfold relevantFiles
  rw [mem_uniqList, List.mem_flatMap]

/-- The central fragment-accounting lemma: for every affected identity, the
fragments the warm path feeds to the merge engine are a permutation of all of
that identity's fragments in the full file map. -/
theorem toMerge_fragments_perm (allParsed : List (String × ParsedNaclFile))
    (hnd : (allParsed.map Prod.fst).Nodup)
    (hkey : ∀ p ∈ allParsed, p.1 = p.2.filename)
    (rel : List String) {id : String} (hid : id ∈ rel) :
    (fragmentsFor id (newElementsToMerge
      (relevantFiles rel (buildElementsIndex (allParsed.map Prod.snd)))
      rel allParsed)).Perm
    (fragmentsFor id (allElements allParsed)) := by
  have hRFkeys : ∀ fn, fn ∈ relevantFiles rel
      (buildElementsIndex (allParsed.map Prod.snd)) → fn ∈ allParsed.map Prod.fst := by
    intro fn hfn
    rcases mem_relevantFiles.mp hfn with ⟨id2, _, hmem⟩
    rcases mem_buildElementsIndex.mp hmem with ⟨f, hf, hfe, -⟩
    rcases List.mem_map.mp hf with ⟨p, hp, rfl⟩
    exact hfe ▸ (hkey p hp) ▸ List.mem_map_of_mem Prod.fst hp
  have hLHS : fragmentsFor id (newElementsToMerge
      (relevantFiles rel (buildElementsIndex (allParsed.map Prod.snd)))
      rel allParsed) =
      (relevantFiles rel (buildElementsIndex (allParsed.map Prod.snd))).flatMap
        (fun fn => (((jsGet allParsed fn).map (fun f => f.elements)).getD []).filter
          (fun e => e.fullName = id)) := by
    unfold fragmentsFor newElementsToMerge
    rw [filter_flatMap]
    refine List.flatMap_congr (fun fn _ => ?_)
    rw [List.filter_filter]
    refine List.filter_congr (fun e _ => ?_)
    by_cases he : e.fullName = id
    · simp [he, hid]
    · simp [he]
  have hRHS : fragmentsFor id (allElements allParsed) =
      allParsed.flatMap (fun p => p.2.elements.filter (fun e => e.fullName = id)) := by
    unfold fragmentsFor allElements
    rw [filter_flatMap]
  have hdropped : ∀ p ∈ allParsed,
      (decide (p.1 ∈ relevantFiles rel
        (buildElementsIndex (allParsed.map Prod.snd))) = false) →
      p.2.elements.filter (fun e => e.fullName = id) = [] := by
    intro p hp hnotin
    rw [List.filter_eq_nil_iff]
    intro e he
    simp only [decide_eq_true_eq]
    intro hei
    have hidx : p.2.filename ∈
        (jsGet (buildElementsIndex (allParsed.map Prod.snd)) id).getD [] :=
      mem_buildElementsIndex.mpr ⟨p.2, List.mem_map_of_mem Prod.snd hp, rfl, e, he, hei⟩
    have hrf : p.1 ∈ relevantFiles rel (buildElementsIndex (allParsed.map Prod.snd)) :=
      mem_relevantFiles.mpr ⟨id, hid, (hkey p hp) ▸ hidx⟩
    simp [hrf] at hnotin
  have hRHS2 : allParsed.flatMap (fun p => p.2.elements.filter (fun e => e.fullName = id)) =
      (allParsed.filter (fun p => decide (p.1 ∈ relevantFiles rel
        (buildElementsIndex (allParsed.map Prod.snd))))).flatMap
        (fun p => p.2.elements.filter (fun e => e.fullName = id)) :=
    (flatMap_filter_eq_of_empty hdropped).symm
  have hentry : ∀ p ∈ allParsed.filter (fun p => decide (p.1 ∈ relevantFiles rel
      (buildElementsIndex (allParsed.map Prod.snd)))),
      p.2.elements.filter (fun e => e.fullName = id) =
        (((jsGet allParsed p.1).map (fun f => f.elements)).getD []).filter
          (fun e => e.fullName = id) := by
    intro p hp
    have hpmem : p ∈ allParsed := (List.mem_filter.mp hp).1
    have : jsGet allParsed p.1 = some p.2 :=
      jsGet_eq_some_of_mem hnd hpmem
    rw [this]
    rfl
  have hRHS3 : (allParsed.filter (fun p => decide (p.1 ∈ relevantFiles rel
      (buildElementsIndex (allParsed.map Prod.snd))))).flatMap
        (fun p => p.2.elements.filter (fun e => e.fullName = id)) =
      ((allParsed.filter (fun p => decide (p.1 ∈ relevantFiles rel
        (buildElementsIndex (allParsed.map Prod.snd))))).map Prod.fst).flatMap
        (fun fn => (((jsGet allParsed fn).map (fun f => f.elements)).getD []).filter
          (fun e => e.fullName = id)) := by
    rw [List.flatMap_map]
    exact List.flatMap_congr hentry
  have hperm : ((allParsed.filter (fun p => decide (p.1 ∈ relevantFiles rel
      (buildElementsIndex (allParsed.map Prod.snd))))).map Prod.fst).Perm
      (relevantFiles rel (buildElementsIndex (allParsed.map Prod.snd))) := by
    refine (List.perm_ext_iff_of_nodup
      (((List.filter_sublist allParsed).map Prod.fst).nodup hnd)
      (nodup_uniqList _)).mpr (fun fn => ?_)
    constructor
    · intro hfn
      rcases List.mem_map.mp hfn with ⟨p, hp, rfl⟩
      have := (List.mem_filter.mp hp).2
      simpa using this
    · intro hfn
      rcases List.mem_map.mp (hRFkeys fn hfn) with ⟨p, hp, rfl⟩
      exact List.mem_map_of_mem Prod.fst
        (List.mem_filter.mpr ⟨hp, by simpa using hfn⟩)

  rw [hLHS, hRHS, hRHS2, hRHS3]
  exact (hperm.flatMap_right _).symm

/-! ## Structure of `jsAssign`: in-place replacement plus appended fresh keys -/

/-- The effect of the overlay on one existing entry: replaced in place when
the new object carries its key, untouched otherwise. -/
def applyNew {α : Type} (new : List (String × α)) (p : String × α) :
    String × α :=
  ((jsGet new p.1).map (fun v => (p.1, v))).getD p

theorem jsAssign_eq_map_append {α : Type} (m new : List (String × α))
    (hnew : (new.map Prod.fst).Nodup) :
    jsAssign m new = m.map (applyNew new) ++
      new.filter (fun q => (jsGet m q.1).isNone) := by
  induction new generalizing m with
  | nil =>
    show m = List.map (applyNew []) m ++
      List.filter (fun q => (jsGet m q.1).isNone) []
    rw [List.filter_nil, List.append_nil]
    have h0 : List.map (applyNew ([] : List (String × α))) m = List.map id m :=
      List.map_congr_left (fun p _ => by simp [applyNew, jsGet])
    rw [h0, List.map_id]
  | cons q qs ih =>
    simp only [List.map_cons, List.nodup_cons] at hnew
    have hq_qs : jsGet qs q.1 = none := by
      rw [jsGet_eq_none_iff]
      intro r hr hrk
      exact hnew.1 (hrk ▸ List.mem_map_of_mem Prod.fst hr)
    show jsAssign (jsInsert m q.1 q.2) qs = _
    rw [ih _ hnew.2]
    have hfilter : qs.filter (fun r => (jsGet (jsInsert m q.1 q.2) r.1).isNone)
        = qs.filter (fun r => (jsGet m r.1).isNone) := by
      refine List.filter_congr (fun r hr => ?_)
      have hrk : r.1 ≠ q.1 := fun he =>
        hnew.1 (he ▸ List.mem_map_of_mem Prod.fst hr)
      rw [jsGet_jsInsert, if_neg hrk]
    rw [hfilter]
    by_cases hqm : (jsGet m q.1).isSome
    · have hins : jsInsert m q.1 q.2 =
          m.map (fun p => if p.1 = q.1 then (q.1, q.2) else p) := by
        unfold jsInsert
        rw [if_pos hqm]
      have hmap : (jsInsert m q.1 q.2).map (applyNew qs) =
          m.map (applyNew (q :: qs)) := by
        rw [hins, List.map_map]
        refine List.map_congr_left (fun p _ => ?_)
        by_cases hpq : p.1 = q.1
        · simp [Function.comp, applyNew, hpq, jsGet, hq_qs]
        · have hqp : ¬(q.1 = p.1) := fun he => hpq he.symm
          simp [Function.comp, applyNew, hpq, hqp, jsGet]
      have hhead : (q :: qs).filter (fun r => (jsGet m r.1).isNone)
          = qs.filter (fun r => (jsGet m r.1).isNone) := by
        rw [List.filter_cons]
        have hfalse : (jsGet m q.1).isNone = false := by
          rcases Option.isSome_iff_exists.mp hqm with ⟨w, hw⟩
          rw [hw]
          rfl
        rw [hfalse]
        simp
      rw [hmap, hhead]
    · have hnone : jsGet m q.1 = none := Option.not_isSome_iff_eq_none.mp hqm
      have hins : jsInsert m q.1 q.2 = m ++ [q] := by
        unfold jsInsert
        rw [if_neg (by rw [hnone]; simp)]
      have hmap : (m ++ [q]).map (applyNew qs) =
          m.map (applyNew (q :: qs)) ++ [q] := by
        rw [List.map_append]
        congr 1
        · refine List.map_congr_left (fun p hp => ?_)
          have hpq : p.1 ≠ q.1 := jsGet_eq_none_iff.mp hnone p hp
          have hqp : ¬(q.1 = p.1) := fun he => hpq he.symm
          simp [applyNew, jsGet, hpq, hqp]
        · simp [applyNew, hq_qs]
      have hhead : (q :: qs).filter (fun r => (jsGet m r.1).isNone)
          = q :: qs.filter (fun r => (jsGet m r.1).isNone) := by
        rw [List.filter_cons, if_pos (by rw [hnone]; rfl)]
      rw [hins, hmap, hhead, List.append_assoc]
      rfl

theorem flatMap_jsAssign {α β : Type} (m new : List (String × α))
    (hnew : (new.map Prod.fst).Nodup) (g : String × α → List β) :
    (jsAssign m new).flatMap g =
      m.flatMap (fun p => g (applyNew new p)) ++
        (new.filter (fun q => (jsGet m q.1).isNone)).flatMap g := by
  rw [jsAssign_eq_map_append m new hnew, List.flatMap_append, List.flatMap_map]

theorem jsAssign_nil {α : Type} (new : List (String × α))
    (h : (new.map Prod.fst).Nodup) : jsAssign [] new = new := by
  rw [jsAssign_eq_append (by simpa using h)]
  rfl

/-! ## The coherence invariant and its preservation -/

/-- Wellformedness of a parsed-file map as `buildNaclFilesState` maintains
it: keys are unique and each entry is stored under its file's filename. -/
def GoodFileMap (m : List (String × ParsedNaclFile)) : Prop :=
  (m.map Prod.fst).Nodup ∧ ∀ p ∈ m, p.1 = p.2.filename

/-- The coherence invariant: a snapshot's merged-element map and merge-error
map are exactly what a global merge of its parsed-file map would produce. -/
def Coherent (s : NaclFilesState) : Prop :=
  GoodFileMap s.parsedNaclFiles ∧
  (∀ id, s.mergedElements id =
    mergedFragments (allElements s.parsedNaclFiles) id) ∧
  (∀ id, s.mergeErrors id = conflictsIn (allElements s.parsedNaclFiles) id)

theorem goodFileMap_nil : GoodFileMap [] :=
  ⟨List.nodup_nil, fun p hp => absurd hp (List.not_mem_nil p)⟩

theorem goodFileMap_overlay {cur : List (String × ParsedNaclFile)}
    (batch : List ParsedNaclFile) (hg : GoodFileMap cur) :
    GoodFileMap (dropEmpty (jsAssign cur (keyBy batch))) := by
  constructor
  · exact nodup_keys_dropEmpty (nodup_keys_jsAssign _ hg.1)
  · intro p hp
    exact pairProp_jsAssign (P := fun p => p.1 = p.2.filename) hg.2
      (fun q hq => (mem_keyBy hq).1) p (mem_dropEmpty.mp hp).1

theorem allElements_dropEmpty (m : List (String × ParsedNaclFile)) :
    allElements (dropEmpty m) = allElements m := by
  unfold allElements dropEmpty
  refine flatMap_filter_eq_of_empty (fun p hp hfalse => ?_)
  have hemp : p.2.elements.isEmpty = true := by
    revert hfalse
    cases p.2.elements.isEmpty <;> cases p.2.errors.isEmpty <;> simp
  exact List.isEmpty_iff.mp hemp

theorem mem_relevantElementIDs {batch : List ParsedNaclFile}
    {cur : List (String × ParsedNaclFile)} {id : String} :
    id ∈ relevantElementIDs batch cur ↔
      (∃ f ∈ batch, ∃ e ∈ f.elements, e.fullName = id) ∨
      (∃ f ∈ batch, ∃ pf, jsGet cur f.filename = some pf ∧
        ∃ e ∈ pf.elements, e.fullName = id) := by
  unfold relevantElementIDs currentElementsOfNewFiles
  rw [mem_uniqList, List.mem_map]
  constructor
  · rintro ⟨e, he, rfl⟩
    rcases List.mem_append.mp he with he | he
    · rcases List.mem_flatMap.mp he with ⟨f, hf, hef⟩
      exact Or.inl ⟨f, hf, e, hef, rfl⟩
    · rcases List.mem_flatMap.mp he with ⟨fn, hfn, hefn⟩
      rcases List.mem_map.mp hfn with ⟨f, hf, rfl⟩
      rcases mem_optElems.mp hefn with ⟨pf, hpf, hepf⟩
      exact Or.inr ⟨f, hf, pf, hpf, e, hepf, rfl⟩
  · rintro (⟨f, hf, e, he, rfl⟩ | ⟨f, hf, pf, hpf, e, he, rfl⟩)
    · exact ⟨e, List.mem_append.mpr (Or.inl (List.mem_flatMap.mpr ⟨f, hf, he⟩)), rfl⟩
    · exact ⟨e, List.mem_append.mpr (Or.inr (List.mem_flatMap.mpr
        ⟨f.filename, List.mem_map_of_mem _ hf,
          mem_optElems.mpr ⟨pf, hpf, he⟩⟩)), rfl⟩

/-- For an identity outside the affected set, the warm overlay does not
change that identity's fragments. -/
theorem fragments_unaffected {cur : List (String × ParsedNaclFile)}
    {batch : List ParsedNaclFile} (hg : GoodFileMap cur) {id : String}
    (hid : id ∉ relevantElementIDs batch cur) :
    fragmentsFor id (allElements (dropEmpty (jsAssign cur (keyBy batch)))) =
      fragmentsFor id (allElements cur) := by
  have hbatchElems : ∀ f ∈ batch,
      f.elements.filter (fun e => e.fullName = id) = [] := by
    intro f hf
    rw [List.filter_eq_nil_iff]
    intro e he hei
    simp only [decide_eq_true_eq] at hei
    exact hid (mem_relevantElementIDs.mpr (Or.inl ⟨f, hf, e, he, hei⟩))
  rw [allElements_dropEmpty]
  unfold fragmentsFor allElements
  rw [filter_flatMap, filter_flatMap,
    flatMap_jsAssign _ _ (nodup_keys_keyBy batch)]
  have hnew0 : ((keyBy batch).filter (fun q => (jsGet cur q.1).isNone)).flatMap
      (fun p => p.2.elements.filter (fun e => e.fullName = id)) = [] := by
    rw [List.flatMap_eq_nil_iff]
    intro p hp
    exact hbatchElems p.2 (mem_keyBy (List.mem_filter.mp hp).1).2
  rw [hnew0, List.append_nil]
  refine List.flatMap_congr (fun p hp => ?_)
  unfold applyNew
  cases hq : jsGet (keyBy batch) p.1 with
  | none => rfl
  | some f =>
    have hfb := mem_keyBy (mem_of_jsGet_eq_some hq)
    have hnew : f.elements.filter (fun e => e.fullName = id) = [] :=
      hbatchElems f hfb.2
    have hold : p.2.elements.filter (fun e => e.fullName = id) = [] := by
      rw [List.filter_eq_nil_iff]
      intro e he hei
      simp only [decide_eq_true_eq] at hei
      refine hid (mem_relevantElementIDs.mpr (Or.inr ⟨f, hfb.2, p.2, ?_, e, he, hei⟩))
      rw [← hfb.1]
      exact jsGet_eq_some_of_mem hg.1 hp
    show f.elements.filter (fun e => e.fullName = id) =
      p.2.elements.filter (fun e => e.fullName = id)
    rw [hnew, hold]

/-! ## The shape of the two transition paths -/

/-- The warm path's full overlaid file map (`allParsed` in the source). -/
def warmAllParsed (batch : List ParsedNaclFile)
    (cur : List (String × ParsedNaclFile)) : List (String × ParsedNaclFile) :=
  dropEmpty (jsAssign cur (keyBy batch))

/-- The fragments the warm path feeds to the incremental merge
(`newElementsToMerge` at its call site in the source). -/
def warmToMerge (batch : List ParsedNaclFile)
    (cur : List (String × ParsedNaclFile)) : List Element :=
  newElementsToMerge
    (relevantFiles (relevantElementIDs batch cur)
      (buildElementsIndex ((warmAllParsed batch cur).map Prod.snd)))
    (relevantElementIDs batch cur) (warmAllParsed batch cur)

theorem cold_state_parsed (batch : List ParsedNaclFile) :
    (buildNaclFilesState batch none).state.parsedNaclFiles =
      dropEmpty (jsAssign [] (keyBy batch)) := rfl

theorem cold_state_merged (batch : List ParsedNaclFile) :
    (buildNaclFilesState batch none).state.mergedElements =
      mergedFragments (batch.flatMap (fun f => f.elements)) := rfl

theorem cold_state_errors (batch : List ParsedNaclFile) :
    (buildNaclFilesState batch none).state.mergeErrors =
      conflictsIn (batch.flatMap (fun f => f.elements)) := rfl

theorem cold_state_elementsIndex (batch : List ParsedNaclFile) :
    (buildNaclFilesState batch none).state.elementsIndex =
      buildElementsIndex ((dropEmpty (jsAssign [] (keyBy batch))).map Prod.snd) := rfl

theorem warm_state_parsed (batch : List ParsedNaclFile) (s : NaclFilesState) :
    (buildNaclFilesState batch (some s)).state.parsedNaclFiles =
      warmAllParsed batch s.parsedNaclFiles := rfl

theorem warm_state_merged (batch : List ParsedNaclFile) (s : NaclFilesState) :
    (buildNaclFilesState batch (some s)).state.mergedElements = fun id =>
      if id ∈ relevantElementIDs batch s.parsedNaclFiles
      then mergedFragments (warmToMerge batch s.parsedNaclFiles) id
      else s.mergedElements id := rfl

theorem warm_state_errors (batch : List ParsedNaclFile) (s : NaclFilesState) :
    (buildNaclFilesState batch (some s)).state.mergeErrors = fun id =>
      if id ∈ relevantElementIDs batch s.parsedNaclFiles
      then conflictsIn (warmToMerge batch s.parsedNaclFiles) id
      else s.mergeErrors id := rfl

theorem warm_state_elementsIndex (batch : List ParsedNaclFile)
    (s : NaclFilesState) :
    (buildNaclFilesState batch (some s)).state.elementsIndex =
      buildElementsIndex ((warmAllParsed batch s.parsedNaclFiles).map Prod.snd) := rfl

theorem warm_changes (batch : List ParsedNaclFile) (s : NaclFilesState) :
    (buildNaclFilesState batch (some s)).changes =
      (relevantElementIDs batch s.parsedNaclFiles).filterMap (fun id =>
        changeFor id (s.mergedElements id)
          (mergedFragments (warmToMerge batch s.parsedNaclFiles) id)) := rfl

/-! ## Coherence of the cold start and its preservation by the warm path -/

theorem cold_coherent (batch : List ParsedNaclFile)
    (hnd : (batch.map (fun f => f.filename)).Nodup) :
    Coherent (buildNaclFilesState batch none).state := by
  have hall : allElements (buildNaclFilesState batch none).state.parsedNaclFiles =
      batch.flatMap (fun f => f.elements) := by
    rw [cold_state_parsed, jsAssign_nil _ (nodup_keys_keyBy batch),
      allElements_dropEmpty, keyBy_eq_of_nodup hnd]
    unfold allElements
    rw [List.flatMap_map]
  refine ⟨?_, ?_, ?_⟩
  · rw [cold_state_parsed]
    exact goodFileMap_overlay batch goodFileMap_nil
  · intro id
    rw [cold_state_merged, hall]
  · intro id
    rw [cold_state_errors, hall]

theorem warm_coherent (batch : List ParsedNaclFile) (s : NaclFilesState)
    (hs : Coherent s) : Coherent (buildNaclFilesState batch (some s)).state := by
  obtain ⟨hg, hm, he⟩ := hs
  have hgood : GoodFileMap (warmAllParsed batch s.parsedNaclFiles) :=
    goodFileMap_overlay batch hg
  have hperm : ∀ id ∈ relevantElementIDs batch s.parsedNaclFiles,
      (fragmentsFor id (warmToMerge batch s.parsedNaclFiles)).Perm
        (fragmentsFor id (allElements (warmAllParsed batch s.parsedNaclFiles))) := by
    intro id hid
    exact toMerge_fragments_perm (warmAllParsed batch s.parsedNaclFiles)
      hgood.1 hgood.2 _ hid
  have hunaff : ∀ id ∉ relevantElementIDs batch s.parsedNaclFiles,
      fragmentsFor id (allElements (warmAllParsed batch s.parsedNaclFiles)) =
        fragmentsFor id (allElements s.parsedNaclFiles) := by
    intro id hid
    unfold warmAllParsed
    exact fragments_unaffected hg hid
  refine ⟨?_, ?_, ?_⟩
  · rw [warm_state_parsed]
    exact hgood
  · intro id
    rw [congrFun (warm_state_merged batch s) id, warm_state_parsed]
    by_cases hid : id ∈ relevantElementIDs batch s.parsedNaclFiles
    · rw [if_pos hid]
      exact mergedFragments_congr (hperm id hid)
    · rw [if_neg hid, hm id]
      exact mergedFragments_congr (by rw [hunaff id hid])
  · intro id
    rw [congrFun (warm_state_errors batch s) id, warm_state_parsed]
    by_cases hid : id ∈ relevantElementIDs batch s.parsedNaclFiles
    · rw [if_pos hid]
      exact conflictsIn_congr (hperm id hid)
    · rw [if_neg hid, he id]
      exact conflictsIn_congr (by rw [hunaff id hid])

/-- Applying a sequence of warm-path batches, one `buildNaclFilesState` call
per batch. -/
def runBatches (s : NaclFilesState) (batches : List (List ParsedNaclFile)) :
    NaclFilesState :=
  batches.foldl (fun st b => (buildNaclFilesState b (some st)).state) s

theorem coherent_runBatches (batches : List (List ParsedNaclFile))
    (s : NaclFilesState) (hs : Coherent s) : Coherent (runBatches s batches) := by
  induction batches generalizing s with
  | nil => exact hs
  | cons b bs ih => exact ih _ (warm_coherent b s hs)

theorem allElements_eq_mapSnd (m : List (String × ParsedNaclFile)) :
    (m.map Prod.snd).flatMap (fun f => f.elements) = allElements m := by
  unfold allElements
  rw [List.flatMap_map]

theorem changeFor_self (id : String) (o : Option (Multiset Element)) :
    changeFor id o o = none := by
  cases o with
  | none => rfl
  | some a => simp [changeFor]

theorem dropEmpty_append (a b : List (String × ParsedNaclFile)) :
    dropEmpty (a ++ b) = dropEmpty a ++ dropEmpty b :=
  List.filter_append _ _

theorem dropEmpty_idem (m : List (String × ParsedNaclFile)) :
    dropEmpty (dropEmpty m) = dropEmpty m := by
  refine List.filter_eq_self.mpr (fun p hp => ?_)
  have := (mem_dropEmpty.mp hp).2
  simp [this]

/-- Re-overlaying a file map with the very batch it was built from leaves it
unchanged. -/
theorem warmAllParsed_reingest (files : List ParsedNaclFile) :
    warmAllParsed files (dropEmpty (keyBy files)) = dropEmpty (keyBy files) := by
  unfold warmAllParsed
  rw [jsAssign_eq_map_append _ _ (nodup_keys_keyBy files)]
  have hmap : (dropEmpty (keyBy files)).map (applyNew (keyBy files)) =
      dropEmpty (keyBy files) := by
    have h1 : (dropEmpty (keyBy files)).map (applyNew (keyBy files)) =
        (dropEmpty (keyBy files)).map id :=
      List.map_congr_left (fun p hp => by
        have hmem : p ∈ keyBy files := (mem_dropEmpty.mp hp).1
        have hj : jsGet (keyBy files) p.1 = some p.2 :=
          jsGet_eq_some_of_mem (nodup_keys_keyBy files) hmem
        simp [applyNew, hj])
    rw [h1, List.map_id]
  have hfil : dropEmpty ((keyBy files).filter
      (fun q => (jsGet (dropEmpty (keyBy files)) q.1).isNone)) = [] := by
    refine List.filter_eq_nil_iff.mpr (fun q hq => ?_)
    rcases List.mem_filter.mp hq with ⟨hqk, hqn⟩
    intro hpred
    have hfalse : (q.2.elements.isEmpty && q.2.errors.isEmpty) = false := by
      revert hpred
      cases q.2.elements.isEmpty && q.2.errors.isEmpty <;> simp
    have hqd : q ∈ dropEmpty (keyBy files) := mem_dropEmpty.mpr ⟨hqk, hfalse⟩
    have hsome := jsGet_eq_some_of_mem
      (nodup_keys_dropEmpty (nodup_keys_keyBy files)) hqd
    rw [hsome] at hqn
    simp at hqn
  rw [hmap, dropEmpty_append, dropEmpty_idem, hfil, List.append_nil]

/-! ## Further state-shape lemmas and the inner transition -/

/-- The current file map of an optional state (`currentState
? currentState.parsedNaclFiles : {}` in the source). -/
def curOf : Option NaclFilesState → List (String × ParsedNaclFile)
  | some s => s.parsedNaclFiles
  | none => []

theorem state_parsed_eq (batch : List ParsedNaclFile)
    (st : Option NaclFilesState) :
    (buildNaclFilesState batch st).state.parsedNaclFiles =
      dropEmpty (jsAssign (curOf st) (keyBy batch)) := by
  cases st <;> rfl

theorem state_elementsIndex_eq (batch : List ParsedNaclFile)
    (st : Option NaclFilesState) :
    (buildNaclFilesState batch st).state.elementsIndex =
      buildElementsIndex ((dropEmpty (jsAssign (curOf st) (keyBy batch))).map
        Prod.snd) := by
  cases st <;> rfl

/-- `buildNaclFilesStateInner` (lines 336–343): with no in-memory state the
lazy `getState` cold-builds from all files currently in the store and the
call reports no changes; with a state present it delegates to the warm
path. -/
def buildNaclFilesStateInner (st : Option NaclFilesState)
    (storeFiles : List ParsedNaclFile)
    (parsedNaclFiles : List ParsedNaclFile) : BuildResult :=
  match st with
  | none => { changes := [], state := (buildNaclFilesState storeFiles none).state }
  | some s => buildNaclFilesState parsedNaclFiles (some s)

theorem isSome_jsGet_jsInsert_mono {α : Type} {m : List (String × α)}
    {k : String} (k' : String) (v : α) (h : (jsGet m k).isSome) :
    (jsGet (jsInsert m k' v) k).isSome := by
  rw [jsGet_jsInsert]
  by_cases hk : k = k'
  · rw [if_pos hk]
    rfl
  · rw [if_neg hk]
    exact h

theorem isSome_jsGet_jsAssign_mono {α : Type} (new : List (String × α))
    {m : List (String × α)} {k : String} (h : (jsGet m k).isSome) :
    (jsGet (jsAssign m new) k).isSome := by
  induction new generalizing m with
  | nil => exact h
  | cons q qs ih => exact ih (isSome_jsGet_jsInsert_mono q.1 q.2 h)

theorem isSome_jsGet_jsAssign_of_mem {α : Type} (m : List (String × α))
    {new : List (String × α)} {q : String × α} (hq : q ∈ new) :
    (jsGet (jsAssign m new) q.1).isSome := by
  induction new generalizing m with
  | nil => cases hq
  | cons r rs ih =>
    rcases List.mem_cons.mp hq with rfl | hq2
    · refine isSome_jsGet_jsAssign_mono rs ?_
      rw [jsGet_jsInsert, if_pos rfl]
      rfl
    · exact ih _ hq2

theorem isSome_jsGet_keyBy {batch : List ParsedNaclFile}
    {f : ParsedNaclFile} (hf : f ∈ batch) :
    (jsGet (keyBy batch) f.filename).isSome := by
  have h : ((f.filename, f) : String × ParsedNaclFile) ∈
      batch.map (fun f => (f.filename, f)) :=
    List.mem_map_of_mem _ hf
  exact isSome_jsGet_jsAssign_of_mem [] h

theorem mem_newElementsToMerge {relFileList rel : List String}
    {allParsed : List (String × ParsedNaclFile)} {e : Element} :
    e ∈ newElementsToMerge relFileList rel allParsed ↔
      ∃ fn ∈ relFileList,
        (∃ pf, jsGet allParsed fn = some pf ∧ e ∈ pf.elements) ∧
        e.fullName ∈ rel := by
  unfold newElementsToMerge
  rw [List.mem_flatMap]
  constructor
  · rintro ⟨fn, hfn, he⟩
    rcases List.mem_filter.mp he with ⟨hee, hrel⟩
    exact ⟨fn, hfn, mem_optElems.mp hee, by simpa using hrel⟩
  · rintro ⟨fn, hfn, hee, hrel⟩
    exact ⟨fn, hfn, List.mem_filter.mpr ⟨mem_optElems.mpr hee, by simpa using hrel⟩⟩

/-! ## Claim theorems -/

/-- **C1**: For any sequence of file-change batches ingested one at a time
through the warm path (`buildNaclFilesState` with a current state), the final
`mergedElements` map (and `mergeErrors`) is identical to the one obtained by
cold-starting (`buildNaclFilesState` with no current state) from the final
file set.  The merged-element and merge-error maps are compared pointwise at
every identity; the initial cold start is taken over files with distinct
filenames, as produced by the directory store. -/
theorem claim1_cold_warm_equivalence (init : List ParsedNaclFile)
    (hnd : (init.map (fun f => f.filename)).Nodup)
    (batches : List (List ParsedNaclFile)) :
    (∀ id, (runBatches (buildNaclFilesState init none).state batches).mergedElements id =
      (buildNaclFilesState
        ((runBatches (buildNaclFilesState init none).state batches).parsedNaclFiles.map Prod.snd)
        none).state.mergedElements id) ∧
    (∀ id, (runBatches (buildNaclFilesState init none).state batches).mergeErrors id =
      (buildNaclFilesState
        ((runBatches (buildNaclFilesState init none).state batches).parsedNaclFiles.map Prod.snd)
        none).state.mergeErrors id) := by
  have hc : Coherent (runBatches (buildNaclFilesState init none).state batches) :=
    coherent_runBatches _ _ (cold_coherent init hnd)
  constructor
  · intro id
    rw [hc.2.1 id, cold_state_merged, allElements_eq_mapSnd]
  · intro id
    rw [hc.2.2 id, cold_state_errors, allElements_eq_mapSnd]

/-- Witness for C1 at a concrete run: one initial file declaring `a.t`, then
a batch overwriting it and a batch deleting it again. -/
theorem claim1_cold_warm_equivalence_witness :
    (([⟨"f.nacl", 0, [⟨⟨"a.t", []⟩, 1⟩], [], []⟩] :
        List ParsedNaclFile).map (fun f => f.filename)).Nodup ∧
    ((∀ id, (runBatches (buildNaclFilesState
        [⟨"f.nacl", 0, [⟨⟨"a.t", []⟩, 1⟩], [], []⟩] none).state
        [[⟨"f.nacl", 1, [⟨⟨"a.t", []⟩, 2⟩], [], []⟩],
         [⟨"f.nacl", 2, [], [], []⟩]]).mergedElements id =
      (buildNaclFilesState
        ((runBatches (buildNaclFilesState
          [⟨"f.nacl", 0, [⟨⟨"a.t", []⟩, 1⟩], [], []⟩] none).state
          [[⟨"f.nacl", 1, [⟨⟨"a.t", []⟩, 2⟩], [], []⟩],
           [⟨"f.nacl", 2, [], [], []⟩]]).parsedNaclFiles.map Prod.snd)
        none).state.mergedElements id) ∧
    (∀ id, (runBatches (buildNaclFilesState
        [⟨"f.nacl", 0, [⟨⟨"a.t", []⟩, 1⟩], [], []⟩] none).state
        [[⟨"f.nacl", 1, [⟨⟨"a.t", []⟩, 2⟩], [], []⟩],
         [⟨"f.nacl", 2, [], [], []⟩]]).mergeErrors id =
      (buildNaclFilesState
        ((runBatches (buildNaclFilesState
          [⟨"f.nacl", 0, [⟨⟨"a.t", []⟩, 1⟩], [], []⟩] none).state
          [[⟨"f.nacl", 1, [⟨⟨"a.t", []⟩, 2⟩], [], []⟩],
           [⟨"f.nacl", 2, [], [], []⟩]]).parsedNaclFiles.map Prod.snd)
        none).state.mergeErrors id)) :=
  ⟨by decide, claim1_cold_warm_equivalence
    [⟨"f.nacl", 0, [⟨⟨"a.t", []⟩, 1⟩], [], []⟩] (by decide)
    [[⟨"f.nacl", 1, [⟨⟨"a.t", []⟩, 2⟩], [], []⟩],
     [⟨"f.nacl", 2, [], [], []⟩]]⟩

/-- **C2**: Ingesting the identical parsed file set a second time (warm path
over a state already built from that same file set) yields a
`mergedElements` map identical to the first and an empty `Change` list on
the second call. -/
theorem claim2_idempotent_reingest (files : List ParsedNaclFile)
    (hnd : (files.map (fun f => f.filename)).Nodup) :
    (∀ id, (buildNaclFilesState files
        (some (buildNaclFilesState files none).state)).state.mergedElements id =
      (buildNaclFilesState files none).state.mergedElements id) ∧
    (buildNaclFilesState files
      (some (buildNaclFilesState files none).state)).changes = [] := by
  set first := (buildNaclFilesState files none).state with hfirst
  have hcoh : Coherent first := cold_coherent files hnd
  have hparsed : first.parsedNaclFiles = dropEmpty (keyBy files) := by
    rw [hfirst, cold_state_parsed, jsAssign_nil _ (nodup_keys_keyBy files)]
  have hre : warmAllParsed files first.parsedNaclFiles = first.parsedNaclFiles := by
    rw [hparsed, warmAllParsed_reingest]
  have hkey : ∀ id ∈ relevantElementIDs files first.parsedNaclFiles,
      mergedFragments (warmToMerge files first.parsedNaclFiles) id =
        first.mergedElements id := by
    intro id hid
    have hgood : GoodFileMap (warmAllParsed files first.parsedNaclFiles) := by
      rw [hre]
      exact hcoh.1
    have hperm := toMerge_fragments_perm (warmAllParsed files first.parsedNaclFiles)
      hgood.1 hgood.2 _ hid
    calc mergedFragments (warmToMerge files first.parsedNaclFiles) id
        = mergedFragments (allElements (warmAllParsed files first.parsedNaclFiles)) id :=
          mergedFragments_congr hperm
      _ = mergedFragments (allElements first.parsedNaclFiles) id := by rw [hre]
      _ = first.mergedElements id := (hcoh.2.1 id).symm
  constructor
  · intro id
    rw [congrFun (warm_state_merged files first) id]
    by_cases hid : id ∈ relevantElementIDs files first.parsedNaclFiles
    · rw [if_pos hid]
      exact hkey id hid
    · rw [if_neg hid]
  · rw [warm_changes]
    refine List.filterMap_eq_nil_iff.mpr (fun id hid => ?_)
    rw [hkey id hid]
    exact changeFor_self id (first.mergedElements id)

/-- Witness for C2 at a concrete file set: two files contributing fragments
of the same element. -/
theorem claim2_idempotent_reingest_witness :
    (([⟨"a.nacl", 0, [⟨⟨"a.t", []⟩, 1⟩], [], []⟩,
       ⟨"b.nacl", 0, [⟨⟨"a.t", []⟩, 2⟩], [], []⟩] :
        List ParsedNaclFile).map (fun f => f.filename)).Nodup ∧
    ((∀ id, (buildNaclFilesState
        [⟨"a.nacl", 0, [⟨⟨"a.t", []⟩, 1⟩], [], []⟩,
         ⟨"b.nacl", 0, [⟨⟨"a.t", []⟩, 2⟩], [], []⟩]
        (some (buildNaclFilesState
          [⟨"a.nacl", 0, [⟨⟨"a.t", []⟩, 1⟩], [], []⟩,
           ⟨"b.nacl", 0, [⟨⟨"a.t", []⟩, 2⟩], [], []⟩] none).state)).state.mergedElements id =
      (buildNaclFilesState
        [⟨"a.nacl", 0, [⟨⟨"a.t", []⟩, 1⟩], [], []⟩,
         ⟨"b.nacl", 0, [⟨⟨"a.t", []⟩, 2⟩], [], []⟩] none).state.mergedElements id) ∧
    (buildNaclFilesState
        [⟨"a.nacl", 0, [⟨⟨"a.t", []⟩, 1⟩], [], []⟩,
         ⟨"b.nacl", 0, [⟨⟨"a.t", []⟩, 2⟩], [], []⟩]
        (some (buildNaclFilesState
          [⟨"a.nacl", 0, [⟨⟨"a.t", []⟩, 1⟩], [], []⟩,
           ⟨"b.nacl", 0, [⟨⟨"a.t", []⟩, 2⟩], [], []⟩] none).state)).changes = []) :=
  ⟨by decide, claim2_idempotent_reingest
    [⟨"a.nacl", 0, [⟨⟨"a.t", []⟩, 1⟩], [], []⟩,
     ⟨"b.nacl", 0, [⟨⟨"a.t", []⟩, 2⟩], [], []⟩] (by decide)⟩

/-- **C3**: After every state transition — any batch, with or without a
current state — the `parsedNaclFiles` map contains no entry whose element
list and error list are both empty; in particular, ingesting a file whose
(empty-text) parse has no elements and no errors removes that filename
entirely from `parsedNaclFiles` and from every `elementsIndex` entry.  The
first conjunct is unconditional; for the removal conjuncts the current
state's file map is assumed to key every entry by its file's filename, as
`buildNaclFilesState` always produces. -/
theorem claim3_tombstoning (batch : List ParsedNaclFile)
    (st : Option NaclFilesState) (fn : String)
    (hkeys : ∀ p ∈ curOf st, p.1 = p.2.filename)
    (hbatch : ∃ f ∈ batch, f.filename = fn)
    (hempty : ∀ f ∈ batch, f.filename = fn → f.elements = [] ∧ f.errors = []) :
    (∀ (b : List ParsedNaclFile) (s : Option NaclFilesState),
      ∀ p ∈ (buildNaclFilesState b s).state.parsedNaclFiles,
        ¬(p.2.elements = [] ∧ p.2.errors = [])) ∧
    jsGet (buildNaclFilesState batch st).state.parsedNaclFiles fn = none ∧
    (∀ id, fn ∉ (jsGet (buildNaclFilesState batch st).state.elementsIndex id).getD []) := by
  rw [state_parsed_eq, state_elementsIndex_eq]
  have hfn_none : jsGet (dropEmpty (jsAssign (curOf st) (keyBy batch))) fn = none := by
    rw [jsGet_eq_none_iff]
    intro p hp hpfn
    rcases mem_dropEmpty.mp hp with ⟨hpa, hpred⟩
    rw [jsAssign_eq_map_append _ _ (nodup_keys_keyBy batch)] at hpa
    rcases List.mem_append.mp hpa with hpa | hpa
    · rcases List.mem_map.mp hpa with ⟨q, hq, rfl⟩
      cases hjs : jsGet (keyBy batch) q.1 with
      | none =>
        have hq1 : q.1 = fn := by
          simpa [applyNew, hjs] using hpfn
        rcases hbatch with ⟨f, hf, hffn⟩
        have hsome := isSome_jsGet_keyBy hf
        rw [hffn, ← hq1, hjs] at hsome
        simp at hsome
      | some g =>
        have hq1 : q.1 = fn := by
          simpa [applyNew, hjs] using hpfn
        have hkb := mem_keyBy (mem_of_jsGet_eq_some hjs)
        have hge := hempty g hkb.2 (by rw [← hkb.1, hq1])
        rw [show applyNew (keyBy batch) q = (q.1, g) by
          simp [applyNew, hjs]] at hpred
        simp [hge.1, hge.2] at hpred
    · have hkb := mem_keyBy (List.mem_filter.mp hpa).1
      have hpe := hempty p.2 hkb.2 (by rw [← hkb.1]; exact hpfn)
      simp [hpe.1, hpe.2] at hpred
  refine ⟨?_, hfn_none, ?_⟩
  · intro b s p hp hcontra
    rw [state_parsed_eq] at hp
    have hpred := (mem_dropEmpty.mp hp).2
    rw [hcontra.1, hcontra.2] at hpred
    simp at hpred
  · intro id hmem
    rcases mem_buildElementsIndex.mp hmem with ⟨f, hf, hffn, -⟩
    rcases List.mem_map.mp hf with ⟨p, hp, rfl⟩
    have hwf : p.1 = p.2.filename :=
      pairProp_jsAssign (P := fun p => p.1 = p.2.filename) hkeys
        (fun q hq => (mem_keyBy hq).1) p (mem_dropEmpty.mp hp).1
    exact jsGet_eq_none_iff.mp hfn_none p hp (hwf.trans hffn.symm)

/-- Witness for C3: after building a state holding `f.nacl`, ingesting an
all-empty parse of `f.nacl` leaves no trace of that filename. -/
theorem claim3_tombstoning_witness :
    ((∀ p ∈ curOf (some (buildNaclFilesState
        [⟨"f.nacl", 0, [⟨⟨"a.t", []⟩, 1⟩], [], []⟩] none).state),
      p.1 = p.2.filename) ∧
    (∃ f ∈ ([⟨"f.nacl", 1, [], [], []⟩] : List ParsedNaclFile),
      f.filename = "f.nacl") ∧
    (∀ f ∈ ([⟨"f.nacl", 1, [], [], []⟩] : List ParsedNaclFile),
      f.filename = "f.nacl" → f.elements = [] ∧ f.errors = [])) ∧
    ((∀ (b : List ParsedNaclFile) (s : Option NaclFilesState),
      ∀ p ∈ (buildNaclFilesState b s).state.parsedNaclFiles,
        ¬(p.2.elements = [] ∧ p.2.errors = [])) ∧
    jsGet (buildNaclFilesState [⟨"f.nacl", 1, [], [], []⟩]
        (some (buildNaclFilesState
          [⟨"f.nacl", 0, [⟨⟨"a.t", []⟩, 1⟩], [], []⟩] none).state)).state.parsedNaclFiles
      "f.nacl" = none ∧
    (∀ id, "f.nacl" ∉ (jsGet (buildNaclFilesState [⟨"f.nacl", 1, [], [], []⟩]
        (some (buildNaclFilesState
          [⟨"f.nacl", 0, [⟨⟨"a.t", []⟩, 1⟩], [], []⟩] none).state)).state.elementsIndex
      id).getD [])) :=
  ⟨⟨by decide, by decide, by decide⟩,
    claim3_tombstoning [⟨"f.nacl", 1, [], [], []⟩]
      (some (buildNaclFilesState
        [⟨"f.nacl", 0, [⟨⟨"a.t", []⟩, 1⟩], [], []⟩] none).state)
      "f.nacl" (by decide) (by decide) (by decide)⟩

/-- **C5**: In the warm-path transition the affected identity set is exactly
the union of (a) the top-level identities of every element in the changed
files' new parses and (b) the top-level identities of every element
previously held by those same filenames; and the re-merged element set is
drawn exactly from the files that the freshly rebuilt `elementsIndex` maps
to some affected identity. -/
theorem claim5_affected_set (batch : List ParsedNaclFile) (s : NaclFilesState) :
    (∀ id, id ∈ relevantElementIDs batch s.parsedNaclFiles ↔
      (∃ f ∈ batch, ∃ e ∈ f.elements, e.fullName = id) ∨
      (∃ f ∈ batch, ∃ pf, jsGet s.parsedNaclFiles f.filename = some pf ∧
        ∃ e ∈ pf.elements, e.fullName = id)) ∧
    (∀ e, e ∈ warmToMerge batch s.parsedNaclFiles ↔
      ∃ fn, (∃ id ∈ relevantElementIDs batch s.parsedNaclFiles,
          fn ∈ (jsGet (buildNaclFilesState batch (some s)).state.elementsIndex id).getD []) ∧
        (∃ pf, jsGet (warmAllParsed batch s.parsedNaclFiles) fn = some pf ∧
          e ∈ pf.elements) ∧
        e.fullName ∈ relevantElementIDs batch s.parsedNaclFiles) := by
  constructor
  · intro id
    exact mem_relevantElementIDs
  · intro e
    rw [warm_state_elementsIndex]
    unfold warmToMerge
    rw [mem_newElementsToMerge]
    constructor
    · rintro ⟨fn, hfn, h1, h2⟩
      exact ⟨fn, mem_relevantFiles.mp hfn, h1, h2⟩
    · rintro ⟨fn, hfn, h1, h2⟩
      exact ⟨fn, mem_relevantFiles.mpr hfn, h1, h2⟩

/-- Counterexample to **C6** as stated: two files both declaring `a.t`,
processed in the two orders, produce different `elementsIndex` rows for
`a.t` (`["f1.nacl", "f2.nacl"]` versus `["f2.nacl", "f1.nacl"]`): the index
is not literally identical under reordering. -/
theorem claim6_counterexample :
    ¬(jsGet (buildNaclFilesState
        [⟨"f1.nacl", 0, [⟨⟨"a.t", []⟩, 1⟩], [], []⟩,
         ⟨"f2.nacl", 0, [⟨⟨"a.t", []⟩, 2⟩], [], []⟩] none).state.elementsIndex "a.t" =
      jsGet (buildNaclFilesState
        [⟨"f2.nacl", 0, [⟨⟨"a.t", []⟩, 2⟩], [], []⟩,
         ⟨"f1.nacl", 0, [⟨⟨"a.t", []⟩, 1⟩], [], []⟩] none).state.elementsIndex "a.t") := by
  decide

/-- **C6 (amended)**: The index build is order-independent up to the
ordering of each row: for every permutation of the parsed-file list, the
`elementsIndex` and `referencedIndex` rows contain the same filenames for
every identity (the sequences may list them in a different order). -/
theorem claim6_index_order_independent (files₁ files₂ : List ParsedNaclFile)
    (h : files₁.Perm files₂) :
    (∀ id fn, fn ∈ (jsGet (buildElementsIndex files₁) id).getD [] ↔
      fn ∈ (jsGet (buildElementsIndex files₂) id).getD []) ∧
    (∀ id fn, fn ∈ (jsGet (buildReferencedIndex files₁) id).getD [] ↔
      fn ∈ (jsGet (buildReferencedIndex files₂) id).getD []) := by
  constructor
  · intro id fn
    rw [mem_buildElementsIndex, mem_buildElementsIndex]
    constructor
    · rintro ⟨f, hf, rest⟩
      exact ⟨f, h.mem_iff.mp hf, rest⟩
    · rintro ⟨f, hf, rest⟩
      exact ⟨f, h.mem_iff.mpr hf, rest⟩
  · intro id fn
    rw [mem_buildReferencedIndex, mem_buildReferencedIndex]
    constructor
    · rintro ⟨f, hf, rest⟩
      exact ⟨f, h.mem_iff.mp hf, rest⟩
    · rintro ⟨f, hf, rest⟩
      exact ⟨f, h.mem_iff.mpr hf, rest⟩

/-- Witness for the amended C6 at a concrete two-file swap. -/
theorem claim6_index_order_independent_witness :
    (([⟨"f1.nacl", 0, [⟨⟨"a.t", []⟩, 1⟩], [], ["a.u"]⟩,
       ⟨"f2.nacl", 0, [⟨⟨"a.t", []⟩, 2⟩], [], []⟩] : List ParsedNaclFile).Perm
      [⟨"f2.nacl", 0, [⟨⟨"a.t", []⟩, 2⟩], [], []⟩,
       ⟨"f1.nacl", 0, [⟨⟨"a.t", []⟩, 1⟩], [], ["a.u"]⟩]) ∧
    ((∀ id fn, fn ∈ (jsGet (buildElementsIndex
        [⟨"f1.nacl", 0, [⟨⟨"a.t", []⟩, 1⟩], [], ["a.u"]⟩,
         ⟨"f2.nacl", 0, [⟨⟨"a.t", []⟩, 2⟩], [], []⟩]) id).getD [] ↔
      fn ∈ (jsGet (buildElementsIndex
        [⟨"f2.nacl", 0, [⟨⟨"a.t", []⟩, 2⟩], [], []⟩,
         ⟨"f1.nacl", 0, [⟨⟨"a.t", []⟩, 1⟩], [], ["a.u"]⟩]) id).getD []) ∧
    (∀ id fn, fn ∈ (jsGet (buildReferencedIndex
        [⟨"f1.nacl", 0, [⟨⟨"a.t", []⟩, 1⟩], [], ["a.u"]⟩,
         ⟨"f2.nacl", 0, [⟨⟨"a.t", []⟩, 2⟩], [], []⟩]) id).getD [] ↔
      fn ∈ (jsGet (buildReferencedIndex
        [⟨"f2.nacl", 0, [⟨⟨"a.t", []⟩, 2⟩], [], []⟩,
         ⟨"f1.nacl", 0, [⟨⟨"a.t", []⟩, 1⟩], [], ["a.u"]⟩]) id).getD [])) :=
  ⟨by decide, claim6_index_order_independent
    [⟨"f1.nacl", 0, [⟨⟨"a.t", []⟩, 1⟩], [], ["a.u"]⟩,
     ⟨"f2.nacl", 0, [⟨⟨"a.t", []⟩, 2⟩], [], []⟩]
    [⟨"f2.nacl", 0, [⟨⟨"a.t", []⟩, 2⟩], [], []⟩,
     ⟨"f1.nacl", 0, [⟨⟨"a.t", []⟩, 1⟩], [], ["a.u"]⟩] (by decide)⟩

/-! ## The reference extractor (`getElementReferenced`, src lines 110–147) -/

/-- Modelled from the spec (§9): the value tree as a closed tagged union —
primitive, reference expression, list, record. -/
inductive Value where
  | prim (n : Nat)
  | ref (id : ElemID)
  | list (vs : List Value)
  | record (fs : List Value)

/-- A field or annotation type as the extractor sees it: a concrete type
carrying its identity, or a container wrapping an inner type. -/
inductive TypeRef where
  | elem (id : ElemID)
  | listType (inner : TypeRef)
  | mapType (inner : TypeRef)
deriving DecidableEq

/-- `getTypeOrContainerTypeID` (src lines 110–112): collapse container
wrappers (`getDeepInnerType` of `adapter-api`) to the innermost type's
identity. -/
def getTypeOrContainerTypeID : TypeRef → ElemID
  | .elem id => id
  | .listType inner => getTypeOrContainerTypeID inner
  | .mapType inner => getTypeOrContainerTypeID inner

/-- An element as the reference extractor distinguishes them: object types
(fields + annotation types + annotation values), primitive types, instances
(type + annotation types + value tree + annotation values), container types
and variables (whose annotation types are empty). -/
inductive SElement where
  | objectType (id : ElemID) (fields : List (String × TypeRef))
      (annotationTypes : List (String × TypeRef)) (annotationValues : List Value)
  | primitiveType (id : ElemID) (annotationTypes : List (String × TypeRef))
      (annotationValues : List Value)
  | instanceElement (id : ElemID) (instType : ElemID)
      (annotationTypes : List (String × TypeRef)) (value : Value)
      (annotationValues : List Value)
  | containerType (id : ElemID) (inner : TypeRef)
  | variableElement (id : ElemID) (value : Value)

/-- `isContainerType` of `adapter-api` on the modelled element. -/
def isContainer : SElement → Bool
  | .containerType _ _ => true
  | _ => false

/-- `isVariable` of `adapter-api` on the modelled element. -/
def isVariableElem : SElement → Bool
  | .variableElement _ _ => true
  | _ => false

/-- The instance's type identity, when the element is an instance. -/
def instTypeOf : SElement → Option ElemID
  | .instanceElement _ t _ _ _ => some t
  | _ => none

mutual
/-- All reference-expression identities in a value tree.  Modelled from the
spec: the `transformElement` walk (external, `adapter-utils`) is "total over
arbitrarily nested maps/lists/records" and visits every reference
expression. -/
def treeRefs : Value → List ElemID
  | .prim _ => []
  | .ref i => [i]
  | .list vs => treeRefsList vs
  | .record fs => treeRefsList fs

/-- `treeRefs` over a list of child values. -/
def treeRefsList : List Value → List ElemID
  | [] => []
  | v :: vs => treeRefs v ++ treeRefsList vs
end

/-- The value trees the walk visits for each element: the instance value and
annotation values (container types are not walked; variables are excluded
by the guard in src line 143). -/
def elementWalkValues : SElement → List Value
  | .objectType _ _ _ avs => avs
  | .primitiveType _ _ avs => avs
  | .instanceElement _ _ _ v avs => v :: avs
  | .containerType _ _ => []
  | .variableElement _ v => [v]

/-- All reference-expression identities in an element's walked value
trees. -/
def elementTreeRefs (e : SElement) : List ElemID :=
  (elementWalkValues e).flatMap treeRefs

/-- The identities contributed by one reference expression (src lines
120–127): the top-level parent plus one nested identity per prefix of the
reference's path.  (The source's idType-insertion conditional is vacuous
over the spec-modelled `ElemID`, which has no separate idType component.) -/
def refNames (id : ElemID) : List String :=
  (id.createTopLevelParentID.1).getFullName ::
    (List.range id.createTopLevelParentID.2.length).map (fun i =>
      (id.createTopLevelParentID.1.createNestedID
        (id.createTopLevelParentID.2.take (i + 1))).getFullName)

/-- The structural contributions of `getElementReferenced` (src lines
132–142): field type identities for object types, the instance's type
identity, and annotation-type identities. -/
def structuralRefs : SElement → List String
  | .objectType _ fields annos _ =>
      fields.map (fun f => (getTypeOrContainerTypeID f.2).getFullName) ++
        annos.map (fun a => (getTypeOrContainerTypeID a.2).getFullName)
  | .primitiveType _ annos _ =>
      annos.map (fun a => (getTypeOrContainerTypeID a.2).getFullName)
  | .instanceElement _ t annos _ _ =>
      t.getFullName ::
        annos.map (fun a => (getTypeOrContainerTypeID a.2).getFullName)
  | .containerType _ _ => []
  | .variableElement _ _ => []

/-- `getElementReferenced` (src lines 114–147): the set (insertion-ordered,
deduplicated, as a JavaScript `Set`) of identities an element depends on —
its structural contributions plus, for elements that are neither container
types nor variables, the contributions of every reference expression found
in the walked value trees. -/
def getElementReferenced (e : SElement) : List String :=
  uniqList (structuralRefs e ++
    (if isContainer e || isVariableElem e then []
     else (elementWalkValues e).flatMap (fun v => (treeRefs v).flatMap refNames)))

theorem mem_refNames (id : ElemID) {i : Nat} (hi : i ≤ id.path.length) :
    (ElemID.mk id.top (id.path.take i)).getFullName ∈ refNames id := by
  unfold refNames ElemID.createTopLevelParentID
  cases i with
  | zero =>
    rw [List.take_zero]
    exact List.mem_cons_self _ _
  | succ k =>
    refine List.mem_cons_of_mem _ (List.mem_map.mpr ⟨k, List.mem_range.mpr ?_, rfl⟩)
    exact Nat.lt_of_succ_le hi

theorem walk_mem_getElementReferenced {e : SElement}
    (hc : isContainer e = false) (hv : isVariableElem e = false) {x : String}
    (hx : x ∈ (elementWalkValues e).flatMap
      (fun v => (treeRefs v).flatMap refNames)) :
    x ∈ getElementReferenced e := by
  unfold getElementReferenced
  rw [mem_uniqList]
  refine List.mem_append.mpr (Or.inr ?_)
  rw [hc, hv]
  exact hx

/-- **C4**: For every element that is neither a container type nor a
variable, the reference extractor's output contains, for every reference
expression to an identity found anywhere in the element's value tree, the
top-level identity and every nested path-prefix identity along the
reference's path; and for every instance element it contains the identity
of the instance's type. -/
theorem claim4_reference_extraction (e : SElement)
    (hc : isContainer e = false) (hv : isVariableElem e = false) :
    (∀ id ∈ elementTreeRefs e, ∀ i ≤ id.path.length,
      (ElemID.mk id.top (id.path.take i)).getFullName ∈ getElementReferenced e) ∧
    (∀ t, instTypeOf e = some t → t.getFullName ∈ getElementReferenced e) := by
  constructor
  · intro id hid i hi
    rcases List.mem_flatMap.mp hid with ⟨v, hv2, hidv⟩
    refine walk_mem_getElementReferenced hc hv
      (List.mem_flatMap.mpr ⟨v, hv2, List.mem_flatMap.mpr ⟨id, hidv, ?_⟩⟩)
    exact mem_refNames id hi
  · intro t ht
    cases e with
    | instanceElement eid t2 annos v avs =>
      simp only [instTypeOf, Option.some.injEq] at ht
      subst ht
      unfold getElementReferenced
      rw [mem_uniqList]
      refine List.mem_append.mpr (Or.inl ?_)
      exact List.mem_cons_self _ _
    | objectType eid fields annos avs => simp [instTypeOf] at ht
    | primitiveType eid annos avs => simp [instTypeOf] at ht
    | containerType eid inner => simp [instTypeOf] at ht
    | variableElement eid v => simp [instTypeOf] at ht

/-- Witness for C4: an instance whose value holds a reference to
`x.y.b.c`; the extractor output contains `x.y`, `x.y.b`, `x.y.b.c` and the
instance's type identity. -/
theorem claim4_reference_extraction_witness :
    (isContainer (SElement.instanceElement ⟨"a.inst", []⟩ ⟨"a.t", []⟩ []
        (Value.ref ⟨"x.y", ["b", "c"]⟩) []) = false ∧
     isVariableElem (SElement.instanceElement ⟨"a.inst", []⟩ ⟨"a.t", []⟩ []
        (Value.ref ⟨"x.y", ["b", "c"]⟩) []) = false) ∧
    ((∀ id ∈ elementTreeRefs (SElement.instanceElement ⟨"a.inst", []⟩ ⟨"a.t", []⟩ []
        (Value.ref ⟨"x.y", ["b", "c"]⟩) []), ∀ i ≤ id.path.length,
      (ElemID.mk id.top (id.path.take i)).getFullName ∈
        getElementReferenced (SElement.instanceElement ⟨"a.inst", []⟩ ⟨"a.t", []⟩ []
          (Value.ref ⟨"x.y", ["b", "c"]⟩) [])) ∧
    (∀ t, instTypeOf (SElement.instanceElement ⟨"a.inst", []⟩ ⟨"a.t", []⟩ []
        (Value.ref ⟨"x.y", ["b", "c"]⟩) []) = some t →
      t.getFullName ∈ getElementReferenced
        (SElement.instanceElement ⟨"a.inst", []⟩ ⟨"a.t", []⟩ []
          (Value.ref ⟨"x.y", ["b", "c"]⟩) []))) :=
  ⟨⟨rfl, rfl⟩, claim4_reference_extraction
    (SElement.instanceElement ⟨"a.inst", []⟩ ⟨"a.t", []⟩ []
      (Value.ref ⟨"x.y", ["b", "c"]⟩) []) rfl rfl⟩

/-- **C9**: The cold-start path always returns an empty `Change` list:
whether `buildNaclFilesState` is called without a current state, or a
mutating call reaches `buildNaclFilesStateInner` before the state was
initialized (which cold-builds from the store), the returned change list is
empty regardless of the input files. -/
theorem claim9_cold_changes_empty :
    (∀ files : List ParsedNaclFile,
      (buildNaclFilesState files none).changes = []) ∧
    (∀ storeFiles batch : List ParsedNaclFile,
      (buildNaclFilesStateInner none storeFiles batch).changes = []) :=
  ⟨fun _ => rfl, fun _ _ => rfl⟩

/-! ## `clear` (src lines 542–558) -/

/-- The arguments of `clear`; the source defaults to clearing everything. -/
structure ClearArgs where
  nacl : Bool := true
  staticResources : Bool := true
  cache : Bool := true
deriving DecidableEq

/-- The collaborators `clear` touches, abstracted to their contents: the
NaCl file store, the parse-result cache, the static files source, and the
in-memory state. -/
structure SourceEnv where
  naclFilesStore : List (String × String)
  cacheStore : List (String × String)
  staticFilesStore : List String
  state : Option NaclFilesState

/-- `clear` (src lines 542–558): throws synchronously when static resources
are requested without both cache and nacl; otherwise clears the requested
stores (static files first, then the nacl store, then the cache) and resets
the in-memory state. -/
def NaclSource.clear (args : ClearArgs) (env : SourceEnv) :
    Except String SourceEnv :=
  if args.staticResources && !(args.cache && args.nacl) then
    Except.error "Cannot clear static resources without clearing the cache and nacls"
  else
    Except.ok
      { naclFilesStore := if args.nacl then [] else env.naclFilesStore
        cacheStore := if args.cache then [] else env.cacheStore
        staticFilesStore := if args.staticResources then [] else env.staticFilesStore
        state := none }

/-- Running `clear` from the caller's standpoint: a thrown error leaves the
environment exactly as it was. -/
def NaclSource.clearRun (args : ClearArgs) (env : SourceEnv) : SourceEnv :=
  match NaclSource.clear args env with
  | Except.error _ => env
  | Except.ok env2 => env2

/-- **C7**: Calling `clear` with `staticResources` requested but `nacl` or
`cache` not requested raises an error synchronously before any mutation:
the call returns the invariant error, and none of the static file source,
the nacl file store, the cache, or the in-memory state is changed. -/
theorem claim7_clear_invariant (args : ClearArgs) (env : SourceEnv)
    (hsr : args.staticResources = true)
    (hnot : args.cache = false ∨ args.nacl = false) :
    NaclSource.clear args env =
      Except.error "Cannot clear static resources without clearing the cache and nacls" ∧
    NaclSource.clearRun args env = env := by
  have hcond : (args.staticResources && !(args.cache && args.nacl)) = true := by
    rcases hnot with h | h <;> simp [hsr, h]
  constructor
  · unfold NaclSource.clear
    rw [if_pos hcond]
  · unfold NaclSource.clearRun NaclSource.clear
    rw [if_pos hcond]

/-- Witness for C7: clearing static resources while skipping the cache is
rejected and mutates nothing. -/
theorem claim7_clear_invariant_witness :
    ((⟨true, true, false⟩ : ClearArgs).staticResources = true ∧
      ((⟨true, true, false⟩ : ClearArgs).cache = false ∨
        (⟨true, true, false⟩ : ClearArgs).nacl = false)) ∧
    (NaclSource.clear ⟨true, true, false⟩
        ⟨[("f.nacl", "type a.t {}")], [("k", "v")], ["blob"], none⟩ =
      Except.error "Cannot clear static resources without clearing the cache and nacls" ∧
    NaclSource.clearRun ⟨true, true, false⟩
        ⟨[("f.nacl", "type a.t {}")], [("k", "v")], ["blob"], none⟩ =
      ⟨[("f.nacl", "type a.t {}")], [("k", "v")], ["blob"], none⟩) :=
  ⟨⟨rfl, Or.inl rfl⟩, claim7_clear_invariant ⟨true, true, false⟩
    ⟨[("f.nacl", "type a.t {}")], [("k", "v")], ["blob"], none⟩ rfl (Or.inl rfl)⟩

/-! ## `updateNaclFiles` (src lines 401–485) -/

/-- A per-file update outcome before write-back: the new parse and the new
buffer text. -/
structure UpdatedFile where
  parsed : ParsedNaclFile
  buffer : String

/-- The per-file results that survive the catch (`filter(values.isDefined)`
in src line 469): files whose update computation threw are dropped. -/
def survivingFiles (upd : String → Except String UpdatedFile)
    (targetFiles : List String) : List UpdatedFile :=
  targetFiles.filterMap (fun fn =>
    match upd fn with
    | Except.ok u => some u
    | Except.error _ => none)

/-- `updateNaclFiles` (src lines 433–485), abstracted over the per-file
computation `upd` (the `getChangeLocations` / `updateNaclFileData` /
re-parse pipeline, whose exceptions the source catches per file, logging
and returning `undefined` for that file): the surviving files are written
back and ingested through the warm path in one batch; with no survivors
the call returns no changes without touching the state.  The result is the
list of filenames written back plus the returned change list. -/
def updateNaclFiles (upd : String → Except String UpdatedFile)
    (targetFiles : List String) (currentState : NaclFilesState) :
    List String × List Change :=
  if (survivingFiles upd targetFiles).isEmpty then ([], [])
  else
    ((survivingFiles upd targetFiles).map (fun u => u.parsed.filename),
      (buildNaclFilesState ((survivingFiles upd targetFiles).map (fun u => u.parsed))
        (some currentState)).changes)

theorem mem_survivingFiles {upd : String → Except String UpdatedFile}
    {targetFiles : List String} {u : UpdatedFile} :
    u ∈ survivingFiles upd targetFiles ↔
      ∃ g ∈ targetFiles, upd g = Except.ok u := by
  unfold survivingFiles
  rw [List.mem_filterMap]
  constructor
  · rintro ⟨g, hg, hsel⟩
    refine ⟨g, hg, ?_⟩
    revert hsel
    cases upd g with
    | ok w => intro h; simp at h; rw [h]
    | error e => intro h; simp at h
  · rintro ⟨g, hg, hok⟩
    exact ⟨g, hg, by rw [hok]⟩

/-- **C8**: In `updateNaclFiles`, a per-file failure (a malformed edit or a
parse exception while computing one file's new content) causes only that
file to be excluded from the updated-file set; the operation as a whole
still succeeds, writing back exactly the surviving updated files and
ingesting them through the warm path. -/
theorem claim8_per_file_failure_isolated
    (upd : String → Except String UpdatedFile) (targetFiles : List String)
    (st : NaclFilesState) (fn msg : String)
    (_hfn : fn ∈ targetFiles) (herr : upd fn = Except.error msg)
    (hgood : ∀ g u, upd g = Except.ok u → u.parsed.filename = g) :
    (∀ g, g ∈ (updateNaclFiles upd targetFiles st).1 ↔
      (g ∈ targetFiles ∧ ∃ u, upd g = Except.ok u)) ∧
    fn ∉ (updateNaclFiles upd targetFiles st).1 ∧
    (updateNaclFiles upd targetFiles st).2 =
      (buildNaclFilesState ((survivingFiles upd targetFiles).map (fun u => u.parsed))
        (some st)).changes := by
  have hmemw : ∀ g, g ∈ (updateNaclFiles upd targetFiles st).1 ↔
      (g ∈ targetFiles ∧ ∃ u, upd g = Except.ok u) := by
    intro g
    by_cases hemp : (survivingFiles upd targetFiles).isEmpty = true
    · have hres : updateNaclFiles upd targetFiles st = ([], []) := by
        unfold updateNaclFiles
        rw [if_pos hemp]
      rw [hres]
      simp only [List.not_mem_nil, false_iff]
      rintro ⟨hg, u, hu⟩
      have : u ∈ survivingFiles upd targetFiles :=
        mem_survivingFiles.mpr ⟨g, hg, hu⟩
      rw [List.isEmpty_iff.mp hemp] at this
      exact List.not_mem_nil u this
    · have hres : (updateNaclFiles upd targetFiles st).1 =
          (survivingFiles upd targetFiles).map (fun u => u.parsed.filename) := by
        unfold updateNaclFiles
        rw [if_neg hemp]
      rw [hres]
      constructor
      · intro hg
        rcases List.mem_map.mp hg with ⟨u, hu, rfl⟩
        rcases mem_survivingFiles.mp hu with ⟨h, hh, hok⟩
        rw [hgood h u hok]
        exact ⟨hh, u, hok⟩
      · rintro ⟨hg, u, hok⟩
        refine List.mem_map.mpr ⟨u, mem_survivingFiles.mpr ⟨g, hg, hok⟩, ?_⟩
        exact hgood g u hok
  refine ⟨hmemw, ?_, ?_⟩
  · intro hmem
    rcases (hmemw fn).mp hmem with ⟨-, u, hu⟩
    rw [herr] at hu
    cases hu
  · by_cases hemp : (survivingFiles upd targetFiles).isEmpty = true
    · have hres : updateNaclFiles upd targetFiles st = ([], []) := by
        unfold updateNaclFiles
        rw [if_pos hemp]
      rw [hres, List.isEmpty_iff.mp hemp]
      rfl
    · unfold updateNaclFiles
      rw [if_neg hemp]

/-- Witness for C8: of two target files, one update computation fails; only
the other is written back and ingested. -/
theorem claim8_per_file_failure_isolated_witness :
    ("bad.nacl" ∈ ["good.nacl", "bad.nacl"] ∧
      (fun g => if g = "good.nacl"
        then Except.ok (⟨⟨"good.nacl", 1, [], ["e"], []⟩, "x"⟩ : UpdatedFile)
        else Except.error "parse failure") "bad.nacl" =
          Except.error "parse failure" ∧
      (∀ g u, (fun g => if g = "good.nacl"
        then Except.ok (⟨⟨"good.nacl", 1, [], ["e"], []⟩, "x"⟩ : UpdatedFile)
        else Except.error "parse failure") g = Except.ok u →
          u.parsed.filename = g)) ∧
    ((∀ g, g ∈ (updateNaclFiles (fun g => if g = "good.nacl"
        then Except.ok (⟨⟨"good.nacl", 1, [], ["e"], []⟩, "x"⟩ : UpdatedFile)
        else Except.error "parse failure") ["good.nacl", "bad.nacl"]
        (buildNaclFilesState [] none).state).1 ↔
      (g ∈ ["good.nacl", "bad.nacl"] ∧ ∃ u, (fun g => if g = "good.nacl"
        then Except.ok (⟨⟨"good.nacl", 1, [], ["e"], []⟩, "x"⟩ : UpdatedFile)
        else Except.error "parse failure") g = Except.ok u)) ∧
    "bad.nacl" ∉ (updateNaclFiles (fun g => if g = "good.nacl"
        then Except.ok (⟨⟨"good.nacl", 1, [], ["e"], []⟩, "x"⟩ : UpdatedFile)
        else Except.error "parse failure") ["good.nacl", "bad.nacl"]
        (buildNaclFilesState [] none).state).1 ∧
    (updateNaclFiles (fun g => if g = "good.nacl"
        then Except.ok (⟨⟨"good.nacl", 1, [], ["e"], []⟩, "x"⟩ : UpdatedFile)
        else Except.error "parse failure") ["good.nacl", "bad.nacl"]
        (buildNaclFilesState [] none).state).2 =
      (buildNaclFilesState ((survivingFiles (fun g => if g = "good.nacl"
        then Except.ok (⟨⟨"good.nacl", 1, [], ["e"], []⟩, "x"⟩ : UpdatedFile)
        else Except.error "parse failure") ["good.nacl", "bad.nacl"]).map
          (fun u => u.parsed))
        (some (buildNaclFilesState [] none).state)).changes) :=
  ⟨⟨by decide, by simp, fun g u h => by
      revert h
      by_cases hg : g = "good.nacl"
      · subst hg
        intro h
        simp at h
        rw [← h]
      · intro h
        simp [hg] at h⟩,
    claim8_per_file_failure_isolated _ ["good.nacl", "bad.nacl"]
      (buildNaclFilesState [] none).state "bad.nacl" "parse failure"
      (by decide) (by simp)
      (fun g u h => by
        revert h
        by_cases hg : g = "good.nacl"
        · subst hg
          intro h
          simp at h
          rw [← h]
        · intro h
          simp [hg] at h)⟩

/-! ## `getSourceMap` (src lines 374–388) -/

/-- A source map, abstracted to its entries (identity full name and span). -/
def SourceMap := List (String × Nat)

/-- A NaCl file as stored: buffer, filename, optional timestamp. -/
structure NaclFile where
  buffer : String
  filename : String
  timestamp : Option Nat

/-- The parse-result cache key (`cacheResultKey`, src lines 103–108):
filename, last-modified timestamp, and the buffer when one is at hand (a
`ParsedNaclFile` carries none). -/
structure ParseResultKey where
  filename : String
  lastModified : Nat
  buffer : Option String
deriving DecidableEq

/-- A cached parse result; the source map is optional in the cache. -/
structure CachedParseResult where
  elements : List Element
  errors : List String
  sourceMap : Option SourceMap

/-- `getSourceMap` (src lines 374–388): look the file up in the state's
`parsedNaclFiles` and build the cache key from it — on a filename with no
entry this property access throws a `TypeError`, modelled as an error
result; then try the cache's source map; then fall back to re-parsing the
stored file (`parseSM` models the external parser's source map); a file
missing from the store yields an empty `SourceMap`. -/
def getSourceMap (st : NaclFilesState)
    (cacheGet : ParseResultKey → Option CachedParseResult)
    (storeGet : String → Option NaclFile) (parseSM : NaclFile → SourceMap)
    (filename : String) : Except String SourceMap :=
  match jsGet st.parsedNaclFiles filename with
  | none => Except.error "TypeError: cannot read filename of undefined"
  | some parsedNaclFile =>
    match cacheGet ⟨parsedNaclFile.filename, parsedNaclFile.timestamp, none⟩ with
    | some cachedResult =>
      match cachedResult.sourceMap with
      | some sm => Except.ok sm
      | none =>
        match storeGet filename with
        | none => Except.ok ([] : SourceMap)
        | some naclFile => Except.ok (parseSM naclFile)
    | none =>
      match storeGet filename with
      | none => Except.ok ([] : SourceMap)
      | some naclFile => Except.ok (parseSM naclFile)

/-- Counterexample to **C10** as stated: for a file missing from the state's
`parsedNaclFiles` map (the ordinary meaning of a missing file, with the
cache holding no source map for any key and the store empty),
`getSourceMap` does not return an empty `SourceMap` — the `cacheResultKey`
property access on `undefined` throws. -/
theorem claim10_counterexample :
    getSourceMap ⟨[], [], fun _ => none, fun _ => false, []⟩ (fun _ => none)
      (fun _ => none) (fun _ => []) "f.nacl" =
    Except.error "TypeError: cannot read filename of undefined" := rfl

/-- **C10 (amended)**: `getSourceMap` never fails on a file that is missing
from the cache and the nacl file store, provided the filename has an entry
in the state's `parsedNaclFiles` map: it returns an empty `SourceMap`
rather than throwing.  For a filename with no `parsedNaclFiles` entry the
call throws. -/
theorem claim10_missing_file (st : NaclFilesState)
    (cacheGet : ParseResultKey → Option CachedParseResult)
    (storeGet : String → Option NaclFile) (parseSM : NaclFile → SourceMap)
    (filename : String) (pf : ParsedNaclFile)
    (hpf : jsGet st.parsedNaclFiles filename = some pf)
    (hc : ∀ r, cacheGet ⟨pf.filename, pf.timestamp, none⟩ = some r →
      r.sourceMap = none)
    (hs : storeGet filename = none) :
    getSourceMap st cacheGet storeGet parseSM filename =
      Except.ok ([] : SourceMap) := by
  cases hcg : cacheGet ⟨pf.filename, pf.timestamp, none⟩ with
  | none => simp [getSourceMap, hpf, hcg, hs]
  | some r => simp [getSourceMap, hpf, hcg, hs, hc r hcg]

/-- Witness for the amended C10 at a concrete state holding one file, with
an empty cache and an empty store. -/
theorem claim10_missing_file_witness :
    (jsGet (NaclFilesState.parsedNaclFiles
        ⟨[("f.nacl", ⟨"f.nacl", 0, [], ["e"], []⟩)], [], fun _ => none,
          fun _ => false, []⟩) "f.nacl" =
      some ⟨"f.nacl", 0, [], ["e"], []⟩ ∧
    (∀ r : CachedParseResult,
      (fun _ : ParseResultKey => (none : Option CachedParseResult))
        ⟨"f.nacl", 0, none⟩ = some r → r.sourceMap = none) ∧
    (fun _ : String => (none : Option NaclFile)) "f.nacl" = none) ∧
    getSourceMap ⟨[("f.nacl", ⟨"f.nacl", 0, [], ["e"], []⟩)], [],
        fun _ => none, fun _ => false, []⟩ (fun _ => none) (fun _ => none)
      (fun _ => []) "f.nacl" = Except.ok ([] : SourceMap) :=
  ⟨⟨rfl, fun _ h => Option.noConfusion h, rfl⟩,
    claim10_missing_file _ _ _ _ "f.nacl" ⟨"f.nacl", 0, [], ["e"], []⟩ rfl
      (fun _ h => Option.noConfusion h) rfl⟩

end Salto
